import Mathlib

/-!
Verification development for the Poli-Granulator realtime granular synthesis
engine (`src/worklet/dsp/filter-cutoff.js`: the limiter, window, scheduler and
granular-processor units).  JavaScript floating-point numbers are embedded as
exact rationals, or as reals where the source computes transcendental
functions (`Math.pow` with fractional exponents, `sin`, `cos`, `tanh`,
`exp`, `log`).  A JS number that may be non-finite is `Option ℚ`, with
`none` standing for `NaN` or `±Infinity`; `Number.isFinite` is then a match
on the option.
-/

namespace Granulator

/-- A JavaScript number as observed through `Number.isFinite`: `some q` is a
finite value, `none` is `NaN` or `±Infinity`. -/
abbrev JSNum := Option ℚ

/-- `clamp` from `filter-cutoff.js`: `Math.max(lo, Math.min(hi, x))`. -/
def clamp {K : Type} [LinearOrder K] (x lo hi : K) : K :=
  max lo (min hi x)

/-- `clamp01` from `granular-processor.js`: `Math.max(0, Math.min(1, x))`. -/
def clamp01 {K : Type} [LinearOrder K] [Zero K] [One K] (x : K) : K :=
  max 0 (min 1 x)

/-! ## Limiter (`limiter.js`)

The limiter is written generically over a linear ordered field so that the
same definition serves the exact-rational instance (used to evaluate concrete
blocks) and the real instance (used inside the full engine chain, whose
release coefficient is `Math.exp(-1/(sr*releaseSec))`). -/

/-- `sanitizeSample` from `limiter.js`: non-finite becomes `0`, denormals
(`|x| < 1e-24`) are flushed to `0`, runaway values (`|x| > 1e6`) are clamped
to `±1e6` via `Math.sign`. -/
def sanitizeSample {K : Type} [LinearOrderedField K] (x : Option K) : K :=
  match x with
  | none => 0
  | some v =>
      if |v| < 1 / 10 ^ 24 then 0
      else if |v| > 10 ^ 6 then (if v < 0 then -(10 ^ 6) else 10 ^ 6)
      else v

/-- The pairwise loop of `truePeak2x`: for each adjacent pair on both
channels it takes the original magnitudes and the linear 2x-upsampled
midpoint magnitude, keeping the running maximum `tp`. -/
def truePeak2xGo {K : Type} [LinearOrderedField K] : List K → List K → K → K
  | l0 :: l1 :: ls, r0 :: r1 :: rs, tp =>
      let a0 := max |l0| |r0|
      let a1 := max |l1| |r1|
      let li := (1 / 2 : K) * (l0 + l1)
      let ri := (1 / 2 : K) * (r0 + r1)
      let ai := max |li| |ri|
      let m := max (max a0 a1) ai
      truePeak2xGo (l1 :: ls) (r1 :: rs) (if m > tp then m else tp)
  | _, _, tp => tp

/-- `truePeak2x` from `limiter.js`: 2x true-peak estimate by linear midpoint
upsampling, with the single-sample special case. -/
def truePeak2x {K : Type} [LinearOrderedField K] (l r : List K) : K :=
  if l.length = 1 then max |l.headD 0| |r.headD 0|
  else truePeak2xGo l r 0

/-- Limiter state, the object literal built by `createLimiter`.  The dB
telemetry fields `lastTpDb`/`lastGrDb` (log-scale copies of values computed
below) are omitted; they feed only the UI outbox. -/
structure LimiterState (K : Type) where
  sr : ℚ
  lookahead : ℕ
  ceil : K
  trim : K
  rel : K
  bufL : List K
  bufR : List K
  write : ℕ
  env : K

/-- `createLimiter` from `limiter.js` (real instance; the release coefficient
is `exp(-1/(sr*releaseMs/1000))`).  `extra` is the integer ring slack. -/
noncomputable def createLimiter (sampleRate : ℚ) (lookaheadMs ceiling releaseMs masterTrim : ℚ)
    (extra : ℕ) : LimiterState ℝ :=
  let lookahead : ℕ := max 1 (⌊sampleRate * (lookaheadMs / 1000)⌋.toNat)
  let extraN : ℕ := max 64 extra
  let releaseMs' : ℚ := max 1 releaseMs
  { sr := sampleRate
    lookahead := lookahead
    ceil := (ceiling : ℝ)
    trim := (masterTrim : ℝ)
    rel := Real.exp (-1 / (sampleRate * (releaseMs' / 1000)))
    bufL := List.replicate (lookahead + extraN) 0
    bufR := List.replicate (lookahead + extraN) 0
    write := 0
    env := 1 }

/-- The ring-write loop of `processLimiter` step 3: write each stereo sample
at the write index, advancing it modulo the ring length. -/
def ringWriteGo {K : Type} : List (K × K) → List K → List K → ℕ → List K × List K × ℕ
  | [], bl, br, w => (bl, br, w)
  | (x, y) :: rest, bl, br, w =>
      ringWriteGo rest (bl.set w x) (br.set w y) ((w + 1) % bl.length)

/-- `processLimiter` from `limiter.js`: sanitize, resize the ring if the
block is larger than capacity, apply master trim, estimate the 2x true peak,
write into the ring, update the gain envelope (instant attack, exponential
release), and emit the delayed ring content scaled by the envelope.
The dB telemetry return values are omitted (UI only); the model returns the
new state and the two output channels.  The source guards the emitted
envelope with `Number.isFinite(s.env) ? s.env : 1`, which is the identity in
this always-finite embedding. -/
def processLimiter {K : Type} [LinearOrderedField K] (s : LimiterState K)
    (inL inR : List (Option K)) : LimiterState K × List K × List K :=
  let N := inL.length
  let l0 := inL.map sanitizeSample
  let r0 := inR.map sanitizeSample
  let need := s.lookahead + max N 64
  let resized :=
    if s.bufL.length < need then
      let oldLen := s.bufL.length
      let newLen := max need (oldLen * 2)
      ((List.ofFn fun i : Fin newLen =>
          if (i : ℕ) < oldLen then s.bufL.getD ((s.write + (i : ℕ)) % oldLen) 0 else 0),
       (List.ofFn fun i : Fin newLen =>
          if (i : ℕ) < oldLen then s.bufR.getD ((s.write + (i : ℕ)) % oldLen) 0 else 0),
       0)
    else (s.bufL, s.bufR, s.write)
  let bufL0 := resized.1
  let bufR0 := resized.2.1
  let write0 := resized.2.2
  let l1 := if s.trim ≠ 1 then l0.map fun x => x * s.trim else l0
  let r1 := if s.trim ≠ 1 then r0.map fun x => x * s.trim else r0
  let tp := truePeak2x l1 r1
  let ceil2 := max (1 / 10) (min 1 s.ceil)
  let needed := if tp > 1 / 10 ^ 12 then min 1 (ceil2 / tp) else 1
  let written := ringWriteGo (l1.zip r1) bufL0 bufR0 write0
  let bufL1 := written.1
  let bufR1 := written.2.1
  let write1 := written.2.2
  let env1 := if needed < s.env then needed else 1 - (1 - s.env) * s.rel
  let len := bufL1.length
  let read0 := (write1 + len - s.lookahead) % len
  let outL := List.ofFn fun i : Fin N => bufL1.getD ((read0 + (i : ℕ)) % len) 0 * env1
  let outR := List.ofFn fun i : Fin N => bufR1.getD ((read0 + (i : ℕ)) % len) 0 * env1
  ({ s with bufL := bufL1, bufR := bufR1, write := write1, env := env1 }, outL, outR)

/-- The composite of `processLimiter` steps 0 and 1 on one channel: sanitize
every sample, then apply the master trim (skipped when the trim is exactly
1).  This names the block that is written into the ring and measured by the
true-peak estimator. -/
def limiterTrimmed {K : Type} [LinearOrderedField K] (s : LimiterState K)
    (inp : List (Option K)) : List K :=
  if s.trim ≠ 1 then (inp.map sanitizeSample).map fun x => x * s.trim
  else inp.map sanitizeSample

/-! ## Hann window and pan (`windows.js`) -/

/-- Length of the table built by `createHannLUT(size)`: `Math.max(16, size|0)`. -/
def lutLen (size : ℕ) : ℕ := max 16 size

/-- Entry `i` of the table built by `createHannLUT` for a table of length `T`:
`sin(π * (i/(T-1)))^2` (the precise Hann window). -/
noncomputable def lutVal (T : ℕ) (i : ℕ) : ℝ :=
  Real.sin (Real.pi * ((i : ℝ) / ((T : ℝ) - 1))) ^ 2

/-- `envAtFromLUT` from `windows.js` for a table of length `T`: returns `1`
for `len ≤ 1` (JS: `!len || len <= 1`), otherwise clamps `pos` into
`[0, len-1]`, maps it linearly onto `[0, T-1]` and linearly interpolates
between the two adjacent table entries.  The envelope position and length are
the integers stored in the grain pool. -/
noncomputable def envAtFromLUT (pos len : ℤ) (T : ℕ) : ℝ :=
  if len ≤ 1 then 1
  else
    let p : ℚ := max 0 (min ((len : ℚ) - 1) (pos : ℚ))
    let t : ℚ := p / ((len : ℚ) - 1) * ((T : ℚ) - 1)
    let i : ℤ := ⌊t⌋
    let f : ℚ := t - i
    let a := lutVal T i.toNat
    let b := lutVal T (min (i.toNat + 1) (T - 1))
    a + (b - a) * (f : ℝ)

/-- The core interpolation of `envAtFromLUT` as a function of the already
mapped table position `t ∈ [0, T-1]`: floor, fractional part, and linear
interpolation between the two adjacent Hann table entries (a proof-level
name for the tail of `envAtFromLUT`). -/
noncomputable def hannInterp (T : ℕ) (t : ℚ) : ℝ :=
  let i : ℤ := ⌊t⌋
  let f : ℚ := t - i
  let a := lutVal T i.toNat
  let b := lutVal T (min (i.toNat + 1) (T - 1))
  a + (b - a) * (f : ℝ)

/-- `equalPowerPan` from `windows.js`: clamp to `[-1,1]`, map to an angle in
`[0, π/2]` and return `(cos, sin)`.  The inner `pan || 0` is the identity in
the exact-rational model (it only rewrites `NaN`/`-0` to `0`). -/
noncomputable def equalPowerPan (pan : ℚ) : ℝ × ℝ :=
  let p : ℚ := max (-1) (min 1 pan)
  let angle : ℝ := ((p : ℝ) + 1) * (1 / 4) * Real.pi
  (Real.cos angle, Real.sin angle)

/-! ## Poisson scheduler (`scheduler.js`) -/

/-- `INT_MAX` (`0x7fffffff`) from `scheduler.js`. -/
def INTMAX : ℤ := 2147483647

/-- `safeFloor` from `scheduler.js`: `Math.min(INT_MAX, Math.max(1, Math.floor(x)))`,
here over the reals produced by the exponential draw. -/
noncomputable def safeFloorR (x : ℝ) : ℤ := min INTMAX (max 1 ⌊x⌋)

/-- `nextIntervalFramesPoisson` from `scheduler.js` with the `Math.random()`
draw `u ∈ [0,1)` made explicit: `safeFloor(-mean * log(1-u))` with
`mean = sampleRate / max(1e-6, density)`.  (`density || 0` is the identity
in the exact-rational model.) -/
noncomputable def nextIntervalFramesPoisson (sampleRate density : ℚ) (u : ℝ) : ℤ :=
  let d : ℚ := max (1 / 10 ^ 6) density
  let mean : ℝ := (sampleRate : ℝ) / (d : ℝ)
  safeFloorR (-mean * Real.log (1 - u))

/-! ## UI mappings (`filter-cutoff.js`) -/

/-- `uiToHz` from `filter-cutoff.js`: `min * (max/min) ^ clamp(t,0,1)`
(real power). -/
noncomputable def uiToHz (t mn mx : ℚ) : ℝ :=
  (mn : ℝ) * ((mx : ℝ) / (mn : ℝ)) ^ ((clamp t 0 1 : ℚ) : ℝ)

/-- `uiToQ` from `filter-cutoff.js`: same exponential law as `uiToHz`. -/
noncomputable def uiToQ (t mn mx : ℚ) : ℝ :=
  (mn : ℝ) * ((mx : ℝ) / (mn : ℝ)) ^ ((clamp t 0 1 : ℚ) : ℝ)

/-- `uiToDrive` from `filter-cutoff.js`: affine map `min + (max-min)*clamp(t,0,1)`. -/
def uiToDrive (t mn mx : ℚ) : ℚ :=
  mn + (mx - mn) * clamp t 0 1

/-- The `mapCut` closure from `process` in `granular-processor.js`: a
non-finite cutoff gives a 2000 Hz base; a finite value `≤ 1.5` is treated as
UI-normalized and mapped through `uiToHz(clamp01(f), 20, 18000)`; a larger
finite value is treated as Hz and clamped to `[20, 0.45*sampleRateOut]`. -/
noncomputable def mapCut (val : JSNum) (sampleRateOut : ℚ) : ℝ :=
  match val with
  | none => 2000
  | some f =>
      if f ≤ 3 / 2 then uiToHz (clamp01 f) 20 18000
      else ((clamp f 20 (9 / 20 * sampleRateOut) : ℚ) : ℝ)

/-! ## Parameter records and the shared parameter plane
(`granular-processor.js`: `_defaultParams`, `_readParams`) -/

/-- The per-cursor parameter record (`_defaultParams` enumerates exactly
these fields).  Fields are exact rationals: the plane reader substitutes a
fallback for any non-finite shared value, and the message fallbacks modeled
here are finite. -/
structure ParamRecord where
  attack : ℚ
  release : ℚ
  density : ℚ
  spread : ℚ
  pan : ℚ
  pitch : ℚ
  cutoff : ℚ
  lfoFreq : ℚ
  lfoDepth : ℚ
  scanSpeed : ℚ
  gain : ℚ
  grainSize : ℚ
  qNorm : ℚ
  driveNorm : ℚ
  slopeSel : ℚ

/-- `_defaultParams` from `granular-processor.js`. -/
def defaultParams : ParamRecord :=
  { attack := 1 / 10, release := 1 / 10, density := 10, spread := 1 / 10
    pan := 0, pitch := 1, cutoff := 5000, lfoFreq := 1, lfoDepth := 1 / 5
    scanSpeed := 0, gain := 1 / 2, grainSize := 1
    qNorm := 1 / 5, driveNorm := 0, slopeSel := 0 }

/-- The `get` helper inside `_readParams`: `Number.isFinite(v[idx]) ? v[idx] : fb`.
A read past the view length yields `undefined` in JS, which is non-finite,
so the plane is modeled as a total map into possibly-non-finite numbers. -/
def getField (v : ℕ → JSNum) (idx : ℕ) (fb : ℚ) : ℚ :=
  match v idx with
  | some x => x
  | none => fb

/-- The `readOne` helper inside `_readParams`: a per-field snapshot of one
cursor's stretch of the shared plane, field-wise falling back to the given
fallback record.  The last three fields are read only when the stride is at
least 15 (in the model the fallback record always carries them, so the JS
`?? 0.2` defaults for absent fallback fields do not arise). -/
def readOne (v : ℕ → JSNum) (S : ℕ) (base : ℕ) (fb : ParamRecord) : ParamRecord :=
  { attack := getField v (base + 0) fb.attack
    release := getField v (base + 1) fb.release
    density := getField v (base + 2) fb.density
    spread := getField v (base + 3) fb.spread
    pan := getField v (base + 4) fb.pan
    pitch := getField v (base + 5) fb.pitch
    cutoff := getField v (base + 6) fb.cutoff
    lfoFreq := getField v (base + 7) fb.lfoFreq
    lfoDepth := getField v (base + 8) fb.lfoDepth
    scanSpeed := getField v (base + 9) fb.scanSpeed
    gain := getField v (base + 10) fb.gain
    grainSize := getField v (base + 11) fb.grainSize
    qNorm := if 15 ≤ S then getField v (base + 12) fb.qNorm else fb.qNorm
    driveNorm := if 15 ≤ S then getField v (base + 13) fb.driveNorm else fb.driveNorm
    slopeSel := if 15 ≤ S then getField v (base + 14) fb.slopeSel else fb.slopeSel }

/-- `_readParams` from `granular-processor.js`: without a shared plane the
message-path records are used as-is; with a plane each cursor is read through
`readOne` with its message-path record as the fallback. -/
def readParams (paramView : Option (ℕ → JSNum)) (stride : ℕ)
    (pa pb pc : ParamRecord) : ParamRecord × ParamRecord × ParamRecord :=
  match paramView with
  | none => (pa, pb, pc)
  | some v => (readOne v stride (0 * stride) pa,
               readOne v stride (1 * stride) pb,
               readOne v stride (2 * stride) pc)

/-! ## Cursor scheduling (`granular-processor.js`: `_spawnBudgetFactor`,
`schedOne`) -/

/-- `_spawnBudgetFactor`: backpressure from the active grain count `n`
against capacity `M`. -/
def spawnBudgetFactor (n M : ℕ) : ℚ :=
  if (n : ℚ) ≥ 19 / 20 * M then 0
  else if (n : ℚ) ≥ 17 / 20 * M then 1 / 5
  else if (n : ℚ) ≥ 7 / 10 * M then 2 / 5
  else if (n : ℚ) ≥ 1 / 2 * M then 13 / 20
  else 1

/-- The `while` loop of `schedOne`: while the accumulated next-spawn instant
is inside the block and the per-block cap is not reached, spawn and add a
fresh interval draw.  `fuel` is the remaining spawn budget
(`maxSpawnPerBlock - spawned`), `k` indexes the draw tape, and the result is
the final accumulator together with the number of loop spawns. -/
def schedLoop (frames : ℤ) (draws : ℕ → ℤ) : ℕ → ℕ → ℤ → ℤ × ℕ
  | 0, _, acc => (acc, 0)
  | fuel + 1, k, acc =>
      if acc ≤ frames then
        let r := schedLoop frames draws fuel (k + 1) (acc + draws k)
        (r.1, r.2 + 1)
      else (acc, 0)

/-- The `schedOne` closure from `process`: one cursor's scheduling step for a
block of `frames` frames.  `draws` is the tape of successive
`nextIntervalFramesPoisson(sampleRateOut, max(0.1, effDen))` return values
(each of which is in `[1, INT_MAX]` by `safeFloor`); `budget` is the
backpressure factor.  Returns the new frames-to-next-spawn countdown and the
number of `_spawnGrain` calls made (`density || 0` is the identity in the
exact-rational model). -/
def schedOne (budget : ℚ) (frames : ℕ) (maxSpawnPerBlock : ℕ) (density : ℚ)
    (ftn : ℤ) (draws : ℕ → ℤ) : ℤ × ℕ :=
  let density' := max 0 density
  let effDen := density' * budget
  if effDen ≤ 0 then (max 0 (ftn - frames), 0)
  else
    let redraw := ftn ≤ 0
    let ftn1 := if redraw then draws 0 else ftn
    let k0 : ℕ := if redraw then 1 else 0
    if ftn1 ≤ frames then
      let acc0 := ftn1 + draws k0
      let r := schedLoop frames draws (maxSpawnPerBlock - 1) (k0 + 1) acc0
      (r.1 - frames, r.2 + 1)
    else (ftn1 - frames, 0)

/-! ## Grain pool, loudness map, spawning and soft-kill
(`granular-processor.js`) -/

/-- One grain record of the struct-of-arrays pool (`g_cursor`, `g_phase`,
`g_inc`, `g_envPos`, `g_envLen`, `g_panL`, `g_panR`, `g_gainC`). -/
structure Grain where
  cursor : Fin 3
  phase : ℝ
  inc : ℝ
  envPos : ℤ
  envLen : ℤ
  panL : ℝ
  panR : ℝ
  gainC : ℝ

instance : Inhabited Grain :=
  ⟨{ cursor := 0, phase := 0, inc := 0, envPos := 0, envLen := 0,
     panL := 0, panR := 0, gainC := 0 }⟩

/-- The loudness map installed by the `setLoudnessMap` message:
`{ rms, win, sr, len }`. -/
structure LoudMap where
  rms : List ℚ
  win : ℚ
  sr : ℚ
  len : ℚ

/-- The window index computed inside `_loudnessAtIndex`:
`Math.max(0, Math.min(rms.length - 1, Math.floor(sampleIndex / win)))`.
The loudness-map producer always supplies a window size `win ≥ 1`, so the
rational division is exact (JS division by zero, which would give an
infinite index clamped to the last window, does not arise). -/
def rmsWindowIndex (m : LoudMap) (sampleIndex : ℚ) : ℕ :=
  (max 0 (min ((m.rms.length : ℤ) - 1) ⌊sampleIndex / m.win⌋)).toNat

/-- `_loudnessAtIndex`: `1` when no map (or an empty `rms`) is present,
otherwise the RMS of the window containing the index, floored at `1e-4`. -/
def loudnessAtIndex (lm : Option LoudMap) (sampleIndex : ℚ) : ℚ :=
  match lm with
  | none => 1
  | some m =>
      if m.rms.length = 0 then 1
      else max (1 / 10 ^ 4) (m.rms.getD (rmsWindowIndex m sampleIndex) 0)

/-- The per-grain loudness compensation computed in `_spawnGrain`:
`Math.pow(target / local, gamma)` with `target = 0.12`, `gamma = 0.6` and
`local = _loudnessAtIndex(startIndex)` (real power). -/
noncomputable def spawnLoudComp (lm : Option LoudMap) (startIndex : ℚ) : ℝ :=
  ((12 / 100 : ℝ) / ((loudnessAtIndex lm startIndex : ℚ) : ℝ)) ^ ((6 / 10 : ℝ))

/-- `_nextKbSemis`: round-robin read of the held-note list, returning the
chosen semitone offset (or `none` when the list is empty) and the advanced
round-robin index. -/
def nextKbSemis (arr : List ℤ) (rr : ℕ) : Option ℤ × ℕ :=
  match arr.length with
  | 0 => (none, rr)
  | n + 1 => (some (arr.getD (rr % (n + 1)) 0), (rr + 1) % (n + 1))

/-- The grain duration in seconds computed in `_spawnGrain`:
`max(0.002, ((attack || 0) + (release || 0)) * (grainSize || 1))`.
`attack || 0` and `release || 0` are the identity on exact rationals;
`grainSize || 1` replaces an exact `0` by `1`. -/
def spawnDurSec (p : ParamRecord) : ℚ :=
  max (1 / 500) ((p.attack + p.release) * (if p.grainSize = 0 then 1 else p.grainSize))

/-- The envelope length in frames computed in `_spawnGrain`:
`Math.max(1, Math.floor(durSec * sampleRateOut))`. -/
def spawnEnvFrames (p : ParamRecord) (sampleRateOut : ℚ) : ℤ :=
  max 1 ⌊spawnDurSec p * sampleRateOut⌋

/-- `_spawnGrain` from `granular-processor.js`, with the `Math.random()`
spread draw `u ∈ [0,1)` made explicit.  Returns the new pool and the new
round-robin index of the spawning cursor.  Gates: no spawn when neither
playing nor holding a note on this cursor, when no source buffer is set, or
when the pool is full. -/
noncomputable def spawnGrain (playing : Bool) (kbArr : List ℤ) (rr : ℕ)
    (channels : Option (List (List ℚ))) (bufferLength : ℕ) (bufferSampleRate : ℚ)
    (MAXGRAINS : ℕ) (sampleRateOut : ℚ) (loudMap : Option LoudMap)
    (position : ℚ) (cursorIndex : Fin 3) (p : ParamRecord) (u : ℚ)
    (pool : List Grain) : List Grain × ℕ :=
  if ¬playing ∧ kbArr.length = 0 then (pool, rr)
  else if channels = none ∨ bufferLength = 0 then (pool, rr)
  else if MAXGRAINS ≤ pool.length then (pool, rr)
  else
    let durSec := spawnDurSec p
    let envFrames := spawnEnvFrames p sampleRateOut
    let bufDurSec : ℚ := (bufferLength : ℚ) / bufferSampleRate
    let baseSec : ℚ := position * bufDurSec
    let spr : ℚ := max 0 p.spread
    let offsetSec : ℚ := if spr > 0 then (u * 2 - 1) * spr else 0
    let start0 := baseSec + offsetSec
    let start1 := if start0 < 0 then 0 else start0
    let startSec := if start1 > bufDurSec - durSec then max 0 (bufDurSec - durSec) else start1
    let startIndex : ℚ := startSec * bufferSampleRate
    let baseRate : ℚ := max (1 / 100) (if p.pitch = 0 then 1 else p.pitch)
    let rrStep := nextKbSemis kbArr rr
    let noteMult : ℝ :=
      match rrStep.1 with
      | none => 1
      | some ss => (2 : ℝ) ^ ((ss : ℝ) / 12)
    let rate : ℝ := (baseRate : ℝ) * noteMult
    let inc : ℝ := rate * ((bufferSampleRate : ℝ) / (sampleRateOut : ℝ))
    let pan := equalPowerPan p.pan
    let loudComp := spawnLoudComp loudMap startIndex
    (pool ++ [{ cursor := cursorIndex, phase := (startIndex : ℚ), inc := inc,
                envPos := 0, envLen := envFrames, panL := pan.1, panR := pan.2,
                gainC := loudComp }], rrStep.2)

/-- The forced-tail length computed in `process`:
`Math.max(1, Math.floor((killTailMs / 1000) * sampleRateOut))`. -/
def killTailFrames (killTailMs sampleRateOut : ℚ) : ℤ :=
  max 1 ⌊killTailMs / 1000 * sampleRateOut⌋

/-- The soft-kill shortening pass of `process`: when any kill is pending,
every live grain of a pending cursor gets
`env_len ← min(env_len, env_pos + tailFrames)`.  The source walks the pool
downward mutating in place; without removals this is a pointwise map. -/
def applyKillShorten (pending : Fin 3 → Bool) (tail : ℤ) (pool : List Grain) : List Grain :=
  if pending 0 || pending 1 || pending 2 then
    pool.map fun g =>
      if pending g.cursor then { g with envLen := min g.envLen (g.envPos + tail) } else g
  else pool

/-- The kill-flag reset pass of `process`: when any kill is pending, a
cursor's flag is lowered exactly when no grain of that cursor remains (the
source's early-exit scan computes plain existence). -/
def clearKillFlags (pending : Fin 3 → Bool) (pool : List Grain) : Fin 3 → Bool :=
  if pending 0 || pending 1 || pending 2 then
    fun c => pending c && pool.any fun g => g.cursor == c
  else pending

/-- `_killGrainSwap`: O(1) removal by swapping the last live grain into the
freed slot and shrinking the pool. -/
def killGrainSwap (pool : List Grain) (idx : ℕ) : List Grain :=
  if idx + 1 = pool.length then pool.dropLast
  else (pool.set idx (pool.getLastD default)).dropLast

/-! ## Source interpolation and grain rendering (`granular-processor.js`) -/

/-- JS `x | 0` truncation toward zero (the 32-bit wraparound of `|0` is not
modeled: reachable source indices stay far below `2^31`). -/
noncomputable def jsTruncR (x : ℝ) : ℤ := if 0 ≤ x then ⌊x⌋ else -⌊-x⌋

/-- `_interpCh`: linear interpolation into source channel `ch` at fractional
index `x`, wrapping the integer part into `[0, bufferLength)`.  A channel
index past the channel list falls back to channel 0 (JS
`channels[ch] || channels[0]`; an existing empty array is truthy). -/
noncomputable def interpCh (channels : Option (List (List ℚ))) (bufferLength : ℕ)
    (ch : ℕ) (x : ℝ) : ℝ :=
  match channels with
  | none => 0
  | some chans =>
      let buf := if ch < chans.length then chans.getD ch [] else chans.getD 0 []
      let len : ℤ := (bufferLength : ℤ)
      if bufferLength = 0 then 0
      else
        let i0 := jsTruncR x
        let frac : ℝ := x - (i0 : ℝ)
        let i0' := if i0 ≥ len then i0 - len * (i0 / len)
                   else if i0 < 0 then i0 + len * ((-i0) / len + 1)
                   else i0
        let i1 := if i0' + 1 ≥ len then 0 else i0' + 1
        let s0 : ℝ := ((buf.getD i0'.toNat 0 : ℚ) : ℝ)
        let s1 : ℝ := ((buf.getD i1.toNat 0 : ℚ) : ℝ)
        s0 + (s1 - s0) * frac

/-- Per-cursor stereo buses for one block, as accumulation functions over
frame indices. -/
abbrev Buses := Fin 3 → (ℕ → ℝ) × (ℕ → ℝ)

/-- One iteration of the grain-render loop of `process` at pool index
`gIdx`: render up to `min(env_len - env_pos, frames)` frames of the grain
into its cursor's bus, advance its phase and envelope position, and
swap-remove it when the envelope completes (or when nothing remains to
render).  The source's running `ph += inc`, `pos++` updates are the exact
closed forms `phase + i*inc` and `envPos + i`. -/
noncomputable def renderOne (channels : Option (List (List ℚ))) (bufferLength T : ℕ)
    (frames : ℕ) (gains : Fin 3 → ℝ) (pool : List Grain) (buses : Buses)
    (gIdx : ℕ) : List Grain × Buses :=
  let g := pool.getD gIdx default
  let N : ℤ := min (g.envLen - g.envPos) (frames : ℤ)
  if N ≤ 0 then (killGrainSwap pool gIdx, buses)
  else
    let Nn := N.toNat
    let gcur := gains g.cursor * g.gainC
    let contribL : ℕ → ℝ := fun i =>
      interpCh channels bufferLength 0 (g.phase + (i : ℝ) * g.inc)
        * envAtFromLUT (g.envPos + (i : ℤ)) g.envLen T * g.panL * gcur
    let contribR : ℕ → ℝ := fun i =>
      interpCh channels bufferLength 1 (g.phase + (i : ℝ) * g.inc)
        * envAtFromLUT (g.envPos + (i : ℤ)) g.envLen T * g.panR * gcur
    let busc := buses g.cursor
    let newL : ℕ → ℝ := fun i => busc.1 i + (if i < Nn then contribL i else 0)
    let newR : ℕ → ℝ := fun i => busc.2 i + (if i < Nn then contribR i else 0)
    let buses' := Function.update buses g.cursor (newL, newR)
    let g' := { g with phase := g.phase + (Nn : ℝ) * g.inc, envPos := g.envPos + (Nn : ℤ) }
    let pool' := pool.set gIdx g'
    if g'.envPos ≥ g.envLen then (killGrainSwap pool' gIdx, buses') else (pool', buses')

/-- The descending grain-render loop of `process` (`for g = count-1 downto 0`). -/
noncomputable def renderLoop (channels : Option (List (List ℚ))) (bufferLength T : ℕ)
    (frames : ℕ) (gains : Fin 3 → ℝ) :
    ℕ → List Grain × Buses → List Grain × Buses
  | 0, st => renderOne channels bufferLength T frames gains st.1 st.2 0
  | gIdx + 1, st =>
      renderLoop channels bufferLength T frames gains gIdx
        (renderOne channels bufferLength T frames gains st.1 st.2 (gIdx + 1))

/-- The full grain-render pass of `process` over the current pool. -/
noncomputable def renderAll (channels : Option (List (List ℚ))) (bufferLength T : ℕ)
    (frames : ℕ) (gains : Fin 3 → ℝ) (pool : List Grain) (buses : Buses) :
    List Grain × Buses :=
  match pool.length with
  | 0 => (pool, buses)
  | n + 1 => renderLoop channels bufferLength T frames gains n (pool, buses)

/-! ## Biquad lowpass and the per-cursor filter bank (`filter-cutoff.js`) -/

/-- `BiquadLP` state: RBJ lowpass coefficients, TDF2 state per stereo
channel, and the current `(fc, q)`. -/
structure BiquadLP where
  fs : ℚ
  b0 : ℝ
  b1 : ℝ
  b2 : ℝ
  a1 : ℝ
  a2 : ℝ
  z1L : ℝ
  z2L : ℝ
  z1R : ℝ
  z2R : ℝ
  fc : ℝ
  q : ℝ

/-- `BiquadLP._recalc`: RBJ cookbook lowpass coefficients at the stored
`(fc, q)`. -/
noncomputable def biquadRecalc (s : BiquadLP) : BiquadLP :=
  let w0 : ℝ := 2 * Real.pi * s.fc / (s.fs : ℝ)
  let c := Real.cos w0
  let sn := Real.sin w0
  let alpha := sn / (2 * s.q)
  let b0 := (1 - c) / 2
  let b1 := 1 - c
  let b2 := (1 - c) / 2
  let a0 := 1 + alpha
  let a1 := -2 * c
  let a2 := 1 - alpha
  { s with b0 := b0 / a0, b1 := b1 / a0, b2 := b2 / a0, a1 := a1 / a0, a2 := a2 / a0 }

/-- `BiquadLP` constructor: zero state, `(fc, q) = (1000, 0.707)`, then
`_recalc`. -/
noncomputable def biquadNew (fs : ℚ) : BiquadLP :=
  biquadRecalc
    { fs := fs, b0 := 0, b1 := 0, b2 := 0, a1 := 0, a2 := 0,
      z1L := 0, z2L := 0, z1R := 0, z2R := 0, fc := 1000, q := 707 / 1000 }

/-- `BiquadLP.setCoeffs`: clamp `fc` to `[15, 0.45*fs]`, floor `q` at
`0.25`, recompute coefficients. -/
noncomputable def biquadSetCoeffs (s : BiquadLP) (fc q : ℝ) : BiquadLP :=
  biquadRecalc { s with fc := clamp fc 15 ((s.fs : ℝ) * (9 / 20)), q := max (1 / 4) q }

/-- The TDF2 sample loop shared by `processTo` and `processAdd`: runs the
biquad over a stereo block (with the `1e-24` anti-denormal offset), returning
the output block and the updated state. -/
noncomputable def biquadRun (s : BiquadLP) : List (ℝ × ℝ) → List (ℝ × ℝ) × BiquadLP
  | [] => ([], s)
  | (xL0, xR0) :: rest =>
      let xL := xL0 + 1 / 10 ^ 24
      let yL := s.b0 * xL + s.z1L
      let z1L := s.b1 * xL - s.a1 * yL + s.z2L
      let z2L := s.b2 * xL - s.a2 * yL
      let xR := xR0 + 1 / 10 ^ 24
      let yR := s.b0 * xR + s.z1R
      let z1R := s.b1 * xR - s.a1 * yR + s.z2R
      let z2R := s.b2 * xR - s.a2 * yR
      let r := biquadRun { s with z1L := z1L, z2L := z2L, z1R := z1R, z2R := z2R } rest
      ((yL, yR) :: r.1, r.2)

/-- `FilterChannel` state: two cascadable biquads, stage count, drive,
smoother time constant, and target/smoothed `(fc, q)`.  The `tmpL`/`tmpR`
scratch arrays are omitted (block-local scratch). -/
structure FilterChannel where
  fs : ℚ
  stage1 : BiquadLP
  stage2 : BiquadLP
  stages : ℕ
  drive : ℝ
  tauMs : ℚ
  fcT : ℝ
  qT : ℝ
  fcS : ℝ
  qS : ℝ

/-- `FilterChannel` constructor. -/
noncomputable def filterChannelNew (fs : ℚ) (tauMs : ℚ) : FilterChannel :=
  { fs := fs, stage1 := biquadNew fs, stage2 := biquadNew fs, stages := 1,
    drive := 1, tauMs := tauMs, fcT := 1000, qT := 707 / 1000,
    fcS := 1000, qS := 707 / 1000 }

/-- `FilterChannel.setTargets`: clamp the target cutoff to `[15, 0.45*fs]`,
floor the target `q` at `0.25`, set stage count and drive (floored at 1) and
the smoother time constant (always the integer 25 at the call sites, so the
JS `tauMs | 0` is the identity). -/
noncomputable def filterSetTargets (f : FilterChannel) (hz q : ℝ) (stages : ℕ)
    (drive : ℝ) (tauMs : ℚ) : FilterChannel :=
  { f with fcT := clamp hz 15 ((f.fs : ℝ) * (9 / 20)), qT := max (1 / 4) q,
           stages := stages, drive := max 1 drive, tauMs := max 1 tauMs }

/-- `FilterChannel.process`: one-pole smoothing of `(fc, q)` toward the
targets, coefficient update (stage 2 only when cascaded), optional `tanh`
pre-drive, then 12 dB (one biquad, accumulated into the output) or 24 dB
(two cascaded biquads, the second accumulated into the output). -/
noncomputable def filterProcess (f : FilterChannel) (n : ℕ) (busL busR : ℕ → ℝ)
    (outL outR : ℕ → ℝ) : FilterChannel × (ℕ → ℝ) × (ℕ → ℝ) :=
  let a : ℝ := Real.exp (-((n : ℝ) / (f.fs : ℝ)) / ((f.tauMs : ℝ) / 1000))
  let fcS := f.fcS * a + f.fcT * (1 - a)
  let qS := f.qS * a + f.qT * (1 - a)
  let st1 := biquadSetCoeffs f.stage1 fcS qS
  let st2 := if 1 < f.stages then biquadSetCoeffs f.stage2 fcS qS else f.stage2
  let bL : ℕ → ℝ := if 1 < f.drive then fun i => Real.tanh (busL i * f.drive) else busL
  let bR : ℕ → ℝ := if 1 < f.drive then fun i => Real.tanh (busR i * f.drive) else busR
  let input := List.ofFn fun i : Fin n => (bL i, bR i)
  if f.stages = 1 then
    let r := biquadRun st1 input
    ({ f with fcS := fcS, qS := qS, stage1 := r.2, stage2 := st2 },
     fun i => outL i + (r.1.getD i (0, 0)).1,
     fun i => outR i + (r.1.getD i (0, 0)).2)
  else
    let r1 := biquadRun st1 input
    let r2 := biquadRun st2 r1.1
    ({ f with fcS := fcS, qS := qS, stage1 := r1.2, stage2 := r2.2 },
     fun i => outL i + (r2.1.getD i (0, 0)).1,
     fun i => outR i + (r2.1.getD i (0, 0)).2)

/-! ## Cursor advance and the engine state (`granular-processor.js`) -/

/-- JS truncation toward zero on exact rationals (`Math.trunc`, and the
implicit truncation of the `%` remainder operator). -/
def jsTrunc (x : ℚ) : ℤ := if 0 ≤ x then ⌊x⌋ else -⌊-x⌋

/-- The JS remainder operator `a % b` (sign of the dividend). -/
def jsMod (a b : ℚ) : ℚ := a - b * jsTrunc (a / b)

/-- `wrap01` from `granular-processor.js`: `((x % 1) + 1) % 1`. -/
def wrap01 (x : ℚ) : ℚ := jsMod (jsMod x 1 + 1) 1

/-- `_advancePositions`: each cursor's normalized position advances by
`scanSpeed * frames / sampleRateOut` and is wrapped into `[0,1)`
(`scanSpeed || 0` is the identity on exact rationals). -/
def advancePositions (sampleRateOut : ℚ) (frames : ℕ) (positions : Fin 3 → ℚ)
    (pA pB pC : ParamRecord) : Fin 3 → ℚ :=
  let dt : ℚ := (frames : ℚ) / sampleRateOut
  ![wrap01 (positions 0 + pA.scanSpeed * dt),
    wrap01 (positions 1 + pB.scanSpeed * dt),
    wrap01 (positions 2 + pC.scanSpeed * dt)]

/-- The `deriveQ` closure from `process` for the modeled 15-field records
(no legacy `q`/`reson`/`resonance` fields are present, so the normalized
branch applies): `uiToQ(clamp01(qNorm), 0.3, 12)`. -/
noncomputable def deriveQ (p : ParamRecord) : ℝ :=
  uiToQ (clamp01 p.qNorm) (3 / 10) 12

/-- The `deriveDrive` closure from `process`:
`uiToDrive(clamp01(driveNorm), 1, 10)`. -/
def deriveDrive (p : ParamRecord) : ℚ :=
  uiToDrive (clamp01 p.driveNorm) 1 10

/-- The `deriveStages` closure from `process`, applied to the (always
present) `slopeSel` field: `24` or anything `≥ 18` selects two stages,
`12` one, otherwise a normalized `≥ 0.5` selects two. -/
def deriveStages (v : ℚ) : ℕ :=
  if v = 24 ∨ v ≥ 18 then 2
  else if v = 12 then 1
  else if v ≥ 1 / 2 then 2 else 1

/-- The full engine state of `GranularProcessorPro` (constructor fields).
Telemetry-only fields are kept where they influence control flow
(`vizCounter`); the outgoing messages themselves are not modeled. -/
structure EngineState where
  sampleRateOut : ℚ
  channels : Option (List (List ℚ))
  channelCount : ℕ
  bufferLength : ℕ
  bufferSampleRate : ℚ
  positions : Fin 3 → ℚ
  paramsA : ParamRecord
  paramsB : ParamRecord
  paramsC : ParamRecord
  paramView : Option (ℕ → JSNum)
  paramStride : ℕ
  framesToNextGrainA : ℤ
  framesToNextGrainB : ℤ
  framesToNextGrainC : ℤ
  lfoPhaseA : ℝ
  lfoPhaseB : ℝ
  lfoPhaseC : ℝ
  loudMap : Option LoudMap
  envTableSize : ℕ
  MAXGRAINS : ℕ
  pool : List Grain
  playing : Bool
  vizCounter : ℕ
  vizIntervalFrames : ℕ
  limiter : LimiterState ℝ
  filters : Fin 3 → FilterChannel
  kbNotes : Fin 3 → List ℤ
  kbRR : Fin 3 → ℕ
  gainSmooth : Fin 3 → ℝ
  gainTarget : Fin 3 → ℝ
  gainTauMs : ℚ
  killPending : Fin 3 → Bool
  killTailMs : ℚ
  maxSpawnPerBlock : ℕ

/-- The constructor of `GranularProcessorPro` at output sample rate `sr`
(no `SharedArrayBuffer` yet, no source buffer, not playing). -/
noncomputable def initState (sr : ℚ) : EngineState :=
  { sampleRateOut := sr
    channels := none
    channelCount := 0
    bufferLength := 0
    bufferSampleRate := sr
    positions := ![3 / 20, 1 / 2, 17 / 20]
    paramsA := defaultParams
    paramsB := defaultParams
    paramsC := defaultParams
    paramView := none
    paramStride := 15
    framesToNextGrainA := 0
    framesToNextGrainB := 0
    framesToNextGrainC := 0
    lfoPhaseA := 0
    lfoPhaseB := 0
    lfoPhaseC := 0
    loudMap := none
    envTableSize := 1024
    MAXGRAINS := 1024
    pool := []
    playing := false
    vizCounter := 0
    vizIntervalFrames := max 1 ⌊sr / 30⌋.toNat
    limiter := createLimiter sr 3 (49 / 50) 50 (4 / 5) 256
    filters := fun _ => filterChannelNew sr 25
    kbNotes := fun _ => []
    kbRR := fun _ => 0
    gainSmooth := fun _ => 1 / 2
    gainTarget := fun _ => 1 / 2
    gainTauMs := 20
    killPending := fun _ => false
    killTailMs := 28
    maxSpawnPerBlock := max 24 ⌊32 * (sr / 48000)⌋.toNat }

/-- The `setPlaying` message handler: `this.playing = !!d.value`. -/
def applySetPlaying (s : EngineState) (v : Bool) : EngineState :=
  { s with playing := v }

/-- Repeated `_spawnGrain` calls for one cursor during one block's
scheduling, consuming one spread draw per call and threading the pool and
the cursor's round-robin index. -/
noncomputable def spawnRepeat (playing : Bool) (kbArr : List ℤ)
    (channels : Option (List (List ℚ))) (bufferLength : ℕ) (bufferSampleRate : ℚ)
    (MAXGRAINS : ℕ) (sampleRateOut : ℚ) (loudMap : Option LoudMap)
    (position : ℚ) (cursorIndex : Fin 3) (p : ParamRecord) (uTape : ℕ → ℚ) :
    ℕ → ℕ → List Grain × ℕ → List Grain × ℕ
  | 0, _, st => st
  | n + 1, k0, st =>
      spawnRepeat playing kbArr channels bufferLength bufferSampleRate MAXGRAINS
        sampleRateOut loudMap position cursorIndex p uTape n (k0 + 1)
        (spawnGrain playing kbArr st.2 channels bufferLength bufferSampleRate
          MAXGRAINS sampleRateOut loudMap position cursorIndex p (uTape k0) st.1)

/-- `process` from `granular-processor.js`: one render quantum of `frames`
frames.  Randomness is made explicit: `drawsA/B/C` are the per-cursor tapes
of `nextIntervalFramesPoisson` return values consumed by `schedOne`, and
`uTapes` the per-cursor tapes of `Math.random()` spread draws consumed by
`_spawnGrain`.  Outgoing `postMessage` telemetry (positions, limiter dB) is
not modeled; `doViz` only resets the counter.  Returns the new state and the
stereo output block. -/
noncomputable def processBlock (s : EngineState) (frames : ℕ)
    (drawsA drawsB drawsC : ℕ → ℤ) (uTapes : Fin 3 → ℕ → ℚ) :
    EngineState × List ℝ × List ℝ :=
  let pr := readParams s.paramView s.paramStride s.paramsA s.paramsB s.paramsC
  let pA := pr.1
  let pB := pr.2.1
  let pC := pr.2.2
  let gainTarget : Fin 3 → ℝ := ![((pA.gain : ℚ) : ℝ), ((pB.gain : ℚ) : ℝ), ((pC.gain : ℚ) : ℝ)]
  let positions' := advancePositions s.sampleRateOut frames s.positions pA pB pC
  let vizNext := s.vizCounter + frames
  let doViz := s.vizIntervalFrames ≤ vizNext
  let vizCounter' := if doViz then 0 else vizNext
  let hasKb := 0 < (s.kbNotes 0).length + (s.kbNotes 1).length + (s.kbNotes 2).length
  let s1 := { s with positions := positions', vizCounter := vizCounter',
                     gainTarget := gainTarget }
  if (¬s.playing ∧ ¬hasKb ∧ s.pool.length = 0) ∨ s.channels = none ∨ s.bufferLength = 0 then
    (s1, List.replicate frames 0, List.replicate frames 0)
  else
    let secondsBlock : ℝ := (frames : ℝ) / (s.sampleRateOut : ℝ)
    let lfoA0 := s.lfoPhaseA + 2 * Real.pi * ((max 0 pA.lfoFreq : ℚ) : ℝ) * secondsBlock
    let lfoB0 := s.lfoPhaseB + 2 * Real.pi * ((max 0 pB.lfoFreq : ℚ) : ℝ) * secondsBlock
    let lfoC0 := s.lfoPhaseC + 2 * Real.pi * ((max 0 pC.lfoFreq : ℚ) : ℝ) * secondsBlock
    let lfoA := if lfoA0 > 10 ^ 12 then lfoA0 - 10 ^ 12 else lfoA0
    let lfoB := if lfoB0 > 10 ^ 12 then lfoB0 - 10 ^ 12 else lfoB0
    let lfoC := if lfoC0 > 10 ^ 12 then lfoC0 - 10 ^ 12 else lfoC0
    let compA : ℝ := 1
    let compB : ℝ := 1
    let compC : ℝ := 1
    let kGain : ℝ := 1 - Real.exp (-((frames : ℝ) / (s.sampleRateOut : ℝ)) / (((s.gainTauMs : ℚ) : ℝ) / 1000))
    let gainSmooth' : Fin 3 → ℝ := fun i => s.gainSmooth i + (gainTarget i - s.gainSmooth i) * kGain
    let gains : Fin 3 → ℝ :=
      ![max 0 (gainSmooth' 0 * compA), max 0 (gainSmooth' 1 * compB), max 0 (gainSmooth' 2 * compC)]
    let kbA := 0 < (s.kbNotes 0).length
    let kbB := 0 < (s.kbNotes 1).length
    let kbC := 0 < (s.kbNotes 2).length
    let budget := spawnBudgetFactor s.pool.length s.MAXGRAINS
    let schedA :=
      if s.playing ∨ kbA then schedOne budget frames s.maxSpawnPerBlock pA.density s.framesToNextGrainA drawsA
      else (max 0 (s.framesToNextGrainA - (frames : ℤ)), 0)
    let stA := spawnRepeat s.playing (s.kbNotes 0) s.channels s.bufferLength s.bufferSampleRate
      s.MAXGRAINS s.sampleRateOut s.loudMap (positions' 0) 0 pA (uTapes 0) schedA.2 0
      (s.pool, s.kbRR 0)
    let schedB :=
      if s.playing ∨ kbB then schedOne budget frames s.maxSpawnPerBlock pB.density s.framesToNextGrainB drawsB
      else (max 0 (s.framesToNextGrainB - (frames : ℤ)), 0)
    let stB := spawnRepeat s.playing (s.kbNotes 1) s.channels s.bufferLength s.bufferSampleRate
      s.MAXGRAINS s.sampleRateOut s.loudMap (positions' 1) 1 pB (uTapes 1) schedB.2 0
      (stA.1, s.kbRR 1)
    let schedC :=
      if s.playing ∨ kbC then schedOne budget frames s.maxSpawnPerBlock pC.density s.framesToNextGrainC drawsC
      else (max 0 (s.framesToNextGrainC - (frames : ℤ)), 0)
    let stC := spawnRepeat s.playing (s.kbNotes 2) s.channels s.bufferLength s.bufferSampleRate
      s.MAXGRAINS s.sampleRateOut s.loudMap (positions' 2) 2 pC (uTapes 2) schedC.2 0
      (stB.1, s.kbRR 2)
    let tailFrames := killTailFrames s.killTailMs s.sampleRateOut
    let pool2 := applyKillShorten s.killPending tailFrames stC.1
    let killPending' := clearKillFlags s.killPending pool2
    let T := lutLen s.envTableSize
    let rendered := renderAll s.channels s.bufferLength T frames gains pool2
      (fun _ => (fun _ => 0, fun _ => 0))
    let pool3 := rendered.1
    let buses := rendered.2
    let Abase := mapCut (some pA.cutoff) s.sampleRateOut
    let Bbase := mapCut (some pB.cutoff) s.sampleRateOut
    let Cbase := mapCut (some pC.cutoff) s.sampleRateOut
    let hi : ℝ := (9 / 20 : ℝ) * ((s.sampleRateOut : ℚ) : ℝ)
    let Afc := clamp (Abase * (1 + ((clamp01 pA.lfoDepth : ℚ) : ℝ) * Real.sin lfoA)) 20 hi
    let Bfc := clamp (Bbase * (1 + ((clamp01 pB.lfoDepth : ℚ) : ℝ) * Real.sin lfoB)) 20 hi
    let Cfc := clamp (Cbase * (1 + ((clamp01 pC.lfoDepth : ℚ) : ℝ) * Real.sin lfoC)) 20 hi
    let f0 := filterSetTargets (s.filters 0) Afc (deriveQ pA) (deriveStages pA.slopeSel) ((deriveDrive pA : ℚ) : ℝ) 25
    let f1 := filterSetTargets (s.filters 1) Bfc (deriveQ pB) (deriveStages pB.slopeSel) ((deriveDrive pB : ℚ) : ℝ) 25
    let f2 := filterSetTargets (s.filters 2) Cfc (deriveQ pC) (deriveStages pC.slopeSel) ((deriveDrive pC : ℚ) : ℝ) 25
    let r0 := filterProcess f0 frames (buses 0).1 (buses 0).2 (fun _ => 0) (fun _ => 0)
    let r1 := filterProcess f1 frames (buses 1).1 (buses 1).2 r0.2.1 r0.2.2
    let r2 := filterProcess f2 frames (buses 2).1 (buses 2).2 r1.2.1 r1.2.2
    let limIn : List (Option ℝ) × List (Option ℝ) :=
      (List.ofFn fun i : Fin frames => some (r2.2.1 i),
       List.ofFn fun i : Fin frames => some (r2.2.2 i))
    let lim := processLimiter s.limiter limIn.1 limIn.2
    ({ s1 with
        framesToNextGrainA := schedA.1
        framesToNextGrainB := schedB.1
        framesToNextGrainC := schedC.1
        lfoPhaseA := lfoA
        lfoPhaseB := lfoB
        lfoPhaseC := lfoC
        gainSmooth := gainSmooth'
        pool := pool3
        kbRR := ![stA.2, stB.2, stC.2]
        killPending := killPending'
        limiter := lim.1
        filters := ![r0.1, r1.1, r2.1] },
     lim.2.1, lim.2.2)

/-- Iterated rendering: run `n` blocks of `frames` frames from a state,
collecting both output channels of every block (left then right, block by
block). -/
noncomputable def runBlocks (frames : ℕ) (dA dB dC : ℕ → ℤ) (uT : Fin 3 → ℕ → ℚ) :
    ℕ → EngineState → EngineState × List ℝ
  | 0, s => (s, [])
  | n + 1, s =>
      let r := processBlock s frames dA dB dC uT
      let rest := runBlocks frames dA dB dC uT n r.1
      (rest.1, (r.2.1 ++ r.2.2) ++ rest.2)

end Granulator

namespace Granulator

/-! ## Theorems -/

/-- C10: the cutoff disambiguation of `mapCut`: non-finite gives 2000 Hz; a
finite value at most 1.5 is treated as normalized and mapped exponentially
into `[20, 18000]`; a larger finite value is treated as Hz and clamped to
`[20, 0.45*sr]`; in all cases the requested base cutoff is at least 20 Hz. -/
theorem mapCut_disambiguation :
    (∀ sr : ℚ, mapCut none sr = 2000) ∧
    (∀ (f sr : ℚ), f ≤ 3 / 2 →
        mapCut (some f) sr = uiToHz (clamp01 f) 20 18000 ∧
        20 ≤ mapCut (some f) sr ∧ mapCut (some f) sr ≤ 18000) ∧
    (∀ (f sr : ℚ), 3 / 2 < f →
        mapCut (some f) sr = ((clamp f 20 (9 / 20 * sr) : ℚ) : ℝ)) ∧
    (∀ (v : JSNum) (sr : ℚ), 20 ≤ mapCut v sr) := by
  have key : ∀ t : ℚ, 20 ≤ uiToHz t 20 18000 ∧ uiToHz t 20 18000 ≤ 18000 := by
    intro t
    have h900 : ((18000 : ℚ) : ℝ) / ((20 : ℚ) : ℝ) = 900 := by norm_num
    have hc0 : (0 : ℚ) ≤ clamp t 0 1 := le_max_left _ _
    have hc1 : clamp t 0 1 ≤ 1 := by
      have := min_le_left (1 : ℚ) t
      exact max_le (by norm_num) this
    have hlow : (1 : ℝ) ≤ (900 : ℝ) ^ (((clamp t 0 1 : ℚ) : ℝ)) := by
      apply Real.one_le_rpow (by norm_num)
      exact_mod_cast hc0
    have hhigh : (900 : ℝ) ^ (((clamp t 0 1 : ℚ) : ℝ)) ≤ 900 := by
      have : (900 : ℝ) ^ (((clamp t 0 1 : ℚ) : ℝ)) ≤ (900 : ℝ) ^ (1 : ℝ) := by
        apply Real.rpow_le_rpow_of_exponent_le (by norm_num)
        exact_mod_cast hc1
      simpa [Real.rpow_one] using this
    constructor
    · calc (20 : ℝ) = 20 * 1 := by ring
      _ ≤ 20 * (900 : ℝ) ^ (((clamp t 0 1 : ℚ) : ℝ)) := by nlinarith
      _ = uiToHz t 20 18000 := by rw [uiToHz, h900]; norm_num
    · calc uiToHz t 20 18000 = 20 * (900 : ℝ) ^ (((clamp t 0 1 : ℚ) : ℝ)) := by
            rw [uiToHz, h900]; norm_num
      _ ≤ 20 * 900 := by nlinarith
      _ = 18000 := by norm_num
  refine ⟨fun sr => rfl, ?_, ?_, ?_⟩
  · intro f sr hf
    refine ⟨by simp [mapCut, hf], ?_, ?_⟩
    · have := (key (clamp01 f)).1
      simpa [mapCut, hf] using this
    · have := (key (clamp01 f)).2
      simpa [mapCut, hf] using this
  · intro f sr hf
    simp [mapCut, not_le.mpr hf, if_neg (not_le.mpr hf)]
  · intro v sr
    match v with
    | none => norm_num [mapCut]
    | some f =>
        by_cases hf : f ≤ 3 / 2
        · have := (key (clamp01 f)).1
          simpa [mapCut, hf] using this
        · have : (20 : ℚ) ≤ clamp f 20 (9 / 20 * sr) := le_max_left _ _
          have h2 : ((20 : ℚ) : ℝ) ≤ ((clamp f 20 (9 / 20 * sr) : ℚ) : ℝ) := by exact_mod_cast this
          simpa [mapCut, hf] using h2

/-- C10 witness: concrete instantiations of the two hypothesis-bearing
branches of `mapCut_disambiguation`. -/
theorem mapCut_disambiguation_witness :
    mapCut (some (1 / 2)) 48000 = uiToHz (clamp01 (1 / 2)) 20 18000 ∧
    mapCut (some 3000) 48000 = ((clamp 3000 20 (9 / 20 * 48000) : ℚ) : ℝ) :=
  ⟨(mapCut_disambiguation.2.1 (1 / 2) 48000 (by norm_num)).1,
   mapCut_disambiguation.2.2.1 3000 48000 (by norm_num)⟩

/-- C2 counterexample: with no loudness map present the per-grain
compensation is `(0.12/1)^0.6 = 0.12^0.6 < 1`, not `1` as claimed. -/
theorem spawnLoudComp_absent_cex :
    spawnLoudComp none 0 = (12 / 100 : ℝ) ^ ((6 / 10 : ℝ)) ∧
    spawnLoudComp none 0 < 1 := by
  have he : spawnLoudComp none 0 = (12 / 100 : ℝ) ^ ((6 / 10 : ℝ)) := by
    simp [spawnLoudComp, loudnessAtIndex]
  refine ⟨he, ?_⟩
  rw [he]
  exact Real.rpow_lt_one (by norm_num) (by norm_num) (by norm_num)

/-- C2 (amended): with a (nonempty) loudness map the compensation is
`(0.12 / max(1e-4, rms_at(start)))^0.6`; with no map the same formula is
applied with the neutral loudness `1`, giving `0.12^0.6`. -/
theorem spawnLoudComp_spec :
    (∀ (m : LoudMap) (idx : ℚ), m.rms.length ≠ 0 →
        spawnLoudComp (some m) idx =
          ((12 / 100 : ℝ) /
            ((max (1 / 10 ^ 4) (m.rms.getD (rmsWindowIndex m idx) 0) : ℚ) : ℝ)) ^
            ((6 / 10 : ℝ))) ∧
    (∀ idx : ℚ, spawnLoudComp none idx = (12 / 100 : ℝ) ^ ((6 / 10 : ℝ))) := by
  constructor
  · intro m idx hm
    simp [spawnLoudComp, loudnessAtIndex, hm]
  · intro idx
    simp [spawnLoudComp, loudnessAtIndex]

/-- C2 witness: `spawnLoudComp_spec` applied to a concrete one-window map. -/
theorem spawnLoudComp_spec_witness :
    spawnLoudComp (some { rms := [1 / 2], win := 100, sr := 48000, len := 1 }) 0 =
      ((12 / 100 : ℝ) /
        ((max (1 / 10 ^ 4)
          (List.getD [1 / 2] (rmsWindowIndex { rms := [1 / 2], win := 100, sr := 48000, len := 1 } 0) 0) : ℚ) : ℝ)) ^
        ((6 / 10 : ℝ)) :=
  spawnLoudComp_spec.1 { rms := [1 / 2], win := 100, sr := 48000, len := 1 } 0 (by decide)

/-- C3 counterexample: a field whose shared value turns non-finite is
replaced by the message-path fallback record's field, not by the last good
(finite) shared value.  Block 1 reads `attack = 7` from the plane; in block
2 the shared `attack` is non-finite and the value used is the default
`0.1 ≠ 7`. -/
theorem readParams_lastgood_cex :
    (readOne (fun i => if i = 0 then some 7 else some 0) 15 0 defaultParams).attack = 7 ∧
    (readOne (fun i => if i = 0 then none else some 0) 15 0 defaultParams).attack = 1 / 10 ∧
    (1 / 10 : ℚ) ≠ 7 := by
  refine ⟨rfl, rfl, by norm_num⟩

/-- C3 (amended): with a shared plane installed, the per-field snapshot is a
field-wise `getField` read, and `getField` returns the shared value exactly
when it is finite and otherwise the fallback field taken from the
message-path parameter record (the constructor defaults as overwritten by
`setParams*` messages) — not the last finite shared value. -/
theorem readParams_validates (v : ℕ → JSNum) (S base : ℕ) (fb : ParamRecord) :
    ((readOne v S base fb).attack = getField v (base + 0) fb.attack ∧
     (readOne v S base fb).release = getField v (base + 1) fb.release ∧
     (readOne v S base fb).density = getField v (base + 2) fb.density ∧
     (readOne v S base fb).spread = getField v (base + 3) fb.spread ∧
     (readOne v S base fb).pan = getField v (base + 4) fb.pan ∧
     (readOne v S base fb).pitch = getField v (base + 5) fb.pitch ∧
     (readOne v S base fb).cutoff = getField v (base + 6) fb.cutoff ∧
     (readOne v S base fb).lfoFreq = getField v (base + 7) fb.lfoFreq ∧
     (readOne v S base fb).lfoDepth = getField v (base + 8) fb.lfoDepth ∧
     (readOne v S base fb).scanSpeed = getField v (base + 9) fb.scanSpeed ∧
     (readOne v S base fb).gain = getField v (base + 10) fb.gain ∧
     (readOne v S base fb).grainSize = getField v (base + 11) fb.grainSize) ∧
    (15 ≤ S →
     (readOne v S base fb).qNorm = getField v (base + 12) fb.qNorm ∧
     (readOne v S base fb).driveNorm = getField v (base + 13) fb.driveNorm ∧
     (readOne v S base fb).slopeSel = getField v (base + 14) fb.slopeSel) ∧
    (∀ (idx : ℕ) (fbv x : ℚ), v idx = some x → getField v idx fbv = x) ∧
    (∀ (idx : ℕ) (fbv : ℚ), v idx = none → getField v idx fbv = fbv) := by
  refine ⟨⟨rfl, rfl, rfl, rfl, rfl, rfl, rfl, rfl, rfl, rfl, rfl, rfl⟩, ?_, ?_, ?_⟩
  · intro hS
    exact ⟨by simp [readOne, hS], by simp [readOne, hS], by simp [readOne, hS]⟩
  · intro idx fbv x hx
    simp [getField, hx]
  · intro idx fbv hx
    simp [getField, hx]

/-- C3 witness: `readParams_validates` applied to a concrete plane with one
finite and one non-finite field. -/
theorem readParams_validates_witness :
    (readOne (fun i => if i = 0 then none else some 3) 15 0 defaultParams).qNorm =
      getField (fun i => if i = 0 then none else some 3) 12 defaultParams.qNorm ∧
    getField (fun i => if i = 0 then none else some 3) 0 defaultParams.attack = defaultParams.attack := by
  have h := readParams_validates (fun i => if i = 0 then none else some 3) 15 0 defaultParams
  exact ⟨(h.2.1 (by norm_num)).1, h.2.2.2 0 defaultParams.attack rfl⟩

/-- Support for the scheduler model: `nextIntervalFramesPoisson` always
returns at least one frame, and the one-frame draw is attained (at
`Math.random() = 0` the exponential draw is `0` and `safeFloor` lifts it to
`1`), so constant-1 draw tapes are realizable. -/
theorem nextIntervalFramesPoisson_ge_one (sr d : ℚ) (u : ℝ) :
    1 ≤ nextIntervalFramesPoisson sr d u ∧ nextIntervalFramesPoisson sr d 0 = 1 := by
  constructor
  · have h1 : (1 : ℤ) ≤ max 1 ⌊-((sr : ℝ) / ((max (1 / 10 ^ 6) d : ℚ) : ℝ)) * Real.log (1 - u)⌋ :=
      le_max_left _ _
    have h2 : (1 : ℤ) ≤ INTMAX := by norm_num [INTMAX]
    exact le_min h2 h1
  · simp [nextIntervalFramesPoisson, safeFloorR, INTMAX]

/-- C4 counterexample: with the engine's own defaults at 48 kHz
(`maxSpawnPerBlock = 32`), a 128-frame block whose countdown starts at 1 and
whose interval draws are all 1 frame hits the per-block cap with the
accumulator still inside the block, and `schedOne` stores the negative
countdown `33 - 128 = -95`. -/
theorem schedOne_negative_countdown_cex :
    (initState 48000).maxSpawnPerBlock = 32 ∧
    schedOne 1 128 32 10 1 (fun _ => 1) = (-95, 32) ∧
    ¬(0 ≤ (schedOne 1 128 32 10 1 (fun _ => 1)).1) := by
  have hloop : schedLoop (128 : ℤ) (fun _ => 1) 31 1 2 = (33, 31) := by decide
  have hsched : schedOne 1 128 32 10 1 (fun _ => 1) = (-95, 32) := by
    norm_num [schedOne, hloop]
  refine ⟨?_, hsched, by rw [hsched]; norm_num⟩
  show max 24 (Int.toNat ⌊(32 * ((48000 : ℚ) / 48000) : ℚ)⌋) = 32
  norm_num
  rfl

/-- The `while` loop of `schedOne` can stop short of its fuel only because
the accumulated spawn instant left the block. -/
theorem schedLoop_exit_gt (frames : ℤ) (draws : ℕ → ℤ) :
    ∀ (fuel k : ℕ) (acc : ℤ),
      (schedLoop frames draws fuel k acc).2 < fuel →
      frames < (schedLoop frames draws fuel k acc).1 := by
  intro fuel
  induction fuel with
  | zero => intro k acc h; simp [schedLoop] at h
  | succ n ih =>
      intro k acc h
      by_cases hacc : acc ≤ frames
      · have hs : schedLoop frames draws (n + 1) k acc =
            ((schedLoop frames draws n (k + 1) (acc + draws k)).1,
             (schedLoop frames draws n (k + 1) (acc + draws k)).2 + 1) := by
          simp [schedLoop, hacc]
        rw [hs] at h ⊢
        exact ih (k + 1) (acc + draws k) (by omega)
      · have hs : schedLoop frames draws (n + 1) k acc = (acc, 0) := by
          simp [schedLoop, hacc]
        rw [hs]
        exact lt_of_not_le hacc

/-- C4 (amended): after any block in which the per-block spawn cap was NOT
reached, the stored countdown is nonnegative (the cap-reached case can store
a negative countdown, as the counterexample shows). -/
theorem schedOne_countdown_nonneg (budget : ℚ) (frames maxSpawn : ℕ) (density : ℚ)
    (ftn : ℤ) (draws : ℕ → ℤ)
    (h : (schedOne budget frames maxSpawn density ftn draws).2 < maxSpawn) :
    0 ≤ (schedOne budget frames maxSpawn density ftn draws).1 := by
  unfold schedOne at h ⊢
  by_cases he : max 0 density * budget ≤ 0
  · simp only [if_pos he]
    exact le_max_left _ _
  · simp only [if_neg he] at h ⊢
    by_cases hr : ftn ≤ 0
    · simp only [if_pos hr] at h ⊢
      by_cases hf : draws 0 ≤ (frames : ℤ)
      · simp only [if_pos hf] at h ⊢
        have hx : (schedLoop (frames : ℤ) draws (maxSpawn - 1) (1 + 1) (draws 0 + draws 1)).2 <
            maxSpawn - 1 := by omega
        have hgt := schedLoop_exit_gt (frames : ℤ) draws (maxSpawn - 1) (1 + 1)
          (draws 0 + draws 1) hx
        omega
      · simp only [if_neg hf]
        omega
    · simp only [if_neg hr] at h ⊢
      by_cases hf : ftn ≤ (frames : ℤ)
      · simp only [if_pos hf] at h ⊢
        have hx : (schedLoop (frames : ℤ) draws (maxSpawn - 1) (0 + 1) (ftn + draws 0)).2 <
            maxSpawn - 1 := by omega
        have hgt := schedLoop_exit_gt (frames : ℤ) draws (maxSpawn - 1) (0 + 1)
          (ftn + draws 0) hx
        omega
      · simp only [if_neg hf]
        omega

/-- C4 witness: a block in which no spawn occurs keeps the countdown
nonnegative, by `schedOne_countdown_nonneg`. -/
theorem schedOne_countdown_nonneg_witness :
    (schedOne 1 4 32 10 200 (fun _ => 1)).2 < 32 ∧
    0 ≤ (schedOne 1 4 32 10 200 (fun _ => 1)).1 := by
  have h2 : (schedOne 1 4 32 10 200 (fun _ => 1)).2 < 32 := by
    norm_num [schedOne]
  exact ⟨h2, schedOne_countdown_nonneg 1 4 32 10 200 (fun _ => 1) h2⟩

/-- C5 counterexample: the forced tail is `max(1, floor(0.028*sr))`, not
`round(0.028*sr)`.  At `sr = 44100` the code shortens a pending grain
(`env_pos = 0`, `env_len = 2000`) to `1234` frames while the claimed
`min(env_len, env_pos + round(0.028*sr))` is `1235`. -/
theorem killShorten_tail_round_cex :
    (applyKillShorten ![false, true, false] (killTailFrames 28 44100)
        [{ cursor := 1, phase := 0, inc := 0, envPos := 0, envLen := 2000,
           panL := 0, panR := 0, gainC := 0 }]).map Grain.envLen = [1234] ∧
    round ((28 / 1000 : ℚ) * 44100) = 1235 ∧ (1234 : ℤ) ≠ 1235 := by
  have hfl : killTailFrames 28 44100 = 1234 := by
    unfold killTailFrames
    norm_num
  refine ⟨?_, by rw [round_eq]; norm_num, by norm_num⟩
  simp [applyKillShorten, hfl]

/-- C5 (amended): with the tail `max(1, floor(0.028*sr))` frames, the
shortening pass rewrites exactly the pending cursors' grains to
`env_len = min(env_len, env_pos + tail)` (leaving the rest untouched), every
shortened grain then has at most `tail ≤ 0.028*sr` frames of envelope left,
and a cursor's kill flag stays raised exactly when it was pending and some
grain of that cursor remains. -/
theorem killShorten_spec (pending : Fin 3 → Bool) (tailMs sr : ℚ) (pool : List Grain) :
    ((applyKillShorten pending (killTailFrames tailMs sr) pool).length = pool.length) ∧
    (∀ i : ℕ,
       (applyKillShorten pending (killTailFrames tailMs sr) pool)[i]? =
         (pool[i]?).map fun g =>
           if pending g.cursor
           then { g with envLen := min g.envLen (g.envPos + killTailFrames tailMs sr) }
           else g) ∧
    (∀ g ∈ applyKillShorten pending (killTailFrames tailMs sr) pool,
       pending g.cursor = true → g.envLen ≤ g.envPos + killTailFrames tailMs sr) ∧
    (1 ≤ tailMs / 1000 * sr →
       ((killTailFrames tailMs sr : ℤ) : ℚ) ≤ tailMs / 1000 * sr) ∧
    (∀ c, clearKillFlags pending pool c =
       (pending c && pool.any fun g => g.cursor == c)) := by
  have hall : (pending 0 || pending 1 || pending 2) = false → ∀ c : Fin 3, pending c = false := by
    intro hno c
    fin_cases c <;> simp_all
  refine ⟨?_, ?_, ?_, ?_, ?_⟩
  · unfold applyKillShorten
    by_cases hp : (pending 0 || pending 1 || pending 2) = true
    · simp [hp]
    · simp [hp]
  · intro i
    unfold applyKillShorten
    by_cases hp : (pending 0 || pending 1 || pending 2) = true
    · simp [hp, List.getElem?_map]
    · have hfalse : (pending 0 || pending 1 || pending 2) = false := by
        simpa using hp
      simp only [hp, if_false, Bool.false_eq_true]
      cases hgi : pool[i]? with
      | none => simp
      | some g =>
          simp [hall hfalse g.cursor, Option.map_some]
  · intro g hg hpc
    unfold applyKillShorten at hg
    by_cases hp : (pending 0 || pending 1 || pending 2) = true
    · rw [if_pos hp] at hg
      obtain ⟨g0, _, hmap⟩ := List.mem_map.mp hg
      by_cases hp0 : pending g0.cursor
      · rw [if_pos hp0] at hmap
        rw [← hmap]
        exact min_le_right _ _
      · rw [if_neg hp0] at hmap
        rw [← hmap] at hpc
        exact absurd hpc (by simpa using hp0)
    · rw [if_neg hp] at hg
      exact absurd hpc (by simp [hall (by simpa using hp) g.cursor])
  · intro h1
    unfold killTailFrames
    have hfle : ((⌊tailMs / 1000 * sr⌋ : ℤ) : ℚ) ≤ tailMs / 1000 * sr := Int.floor_le _
    have : ((max 1 ⌊tailMs / 1000 * sr⌋ : ℤ) : ℚ) = max 1 ((⌊tailMs / 1000 * sr⌋ : ℤ) : ℚ) := by
      push_cast
      rfl
    rw [this]
    exact max_le h1 hfle
  · intro c
    unfold clearKillFlags
    by_cases hp : (pending 0 || pending 1 || pending 2) = true
    · simp [hp]
    · have hfalse : (pending 0 || pending 1 || pending 2) = false := by
        simpa using hp
      simp [hp, hall hfalse c]

/-- C5 witness: `killShorten_spec` at a concrete pending set, pool and
sample rate. -/
theorem killShorten_spec_witness :
    ((killTailFrames 28 48000 : ℤ) : ℚ) ≤ 28 / 1000 * 48000 ∧
    (∀ c, clearKillFlags ![true, false, false] ([] : List Grain) c =
       (![true, false, false] c && List.any ([] : List Grain) fun g => g.cursor == c)) := by
  have h := killShorten_spec ![true, false, false] 28 48000 []
  exact ⟨h.2.2.2.1 (by norm_num), h.2.2.2.2⟩

/-- C6 counterexample: the envelope length is `max(1, floor(dur*sr))`, not
`round(dur*sr)`.  With `attack = 0.0020125`, `release = 0`,
`grain_size = 1` at 48 kHz, `dur*sr = 96.6`: the code stores 96 frames, the
claimed rounding gives 97. -/
theorem spawnEnvFrames_round_cex :
    spawnEnvFrames { defaultParams with attack := 161 / 80000, release := 0, grainSize := 1 } 48000 = 96 ∧
    round (spawnDurSec { defaultParams with attack := 161 / 80000, release := 0, grainSize := 1 } * 48000) = 97 ∧
    (96 : ℤ) ≠ 97 := by
  have hdur : spawnDurSec { defaultParams with attack := 161 / 80000, release := 0, grainSize := 1 } =
      161 / 80000 := by
    unfold spawnDurSec
    norm_num
  refine ⟨?_, ?_, by norm_num⟩
  · unfold spawnEnvFrames
    rw [hdur]
    norm_num
  · rw [hdur, round_eq]
    norm_num

/-- C6 (amended): every spawned grain's duration is
`max(0.002, (attack + release) * grain_size)` seconds (with a zero
`grain_size` falling back to 1), the stored envelope length is
`max(1, floor(dur * sr_out))` frames, and a grain actually appended by
`_spawnGrain` carries exactly that envelope length. -/
theorem spawnEnvFrames_spec (p : ParamRecord) (sr : ℚ) :
    spawnEnvFrames p sr = max 1 ⌊spawnDurSec p * sr⌋ ∧
    (p.grainSize ≠ 0 → spawnDurSec p = max (1 / 500) ((p.attack + p.release) * p.grainSize)) ∧
    (1 / 500 : ℚ) ≤ spawnDurSec p ∧
    1 ≤ spawnEnvFrames p sr ∧
    (∀ (playing : Bool) (kbArr : List ℤ) (rr : ℕ) (channels : Option (List (List ℚ)))
       (bufferLength : ℕ) (bufferSampleRate : ℚ) (MAXGRAINS : ℕ) (loudMap : Option LoudMap)
       (position : ℚ) (cursorIndex : Fin 3) (u : ℚ) (pool : List Grain),
       (spawnGrain playing kbArr rr channels bufferLength bufferSampleRate MAXGRAINS sr
           loudMap position cursorIndex p u pool).1.length = pool.length + 1 →
       ((spawnGrain playing kbArr rr channels bufferLength bufferSampleRate MAXGRAINS sr
           loudMap position cursorIndex p u pool).1.getLastD default).envLen
         = spawnEnvFrames p sr) := by
  refine ⟨rfl, ?_, le_max_left _ _, le_max_left _ _, ?_⟩
  · intro h
    unfold spawnDurSec
    rw [if_neg h]
  · intro playing kbArr rr channels bufferLength bufferSampleRate MAXGRAINS loudMap
      position cursorIndex u pool hlen
    unfold spawnGrain at hlen ⊢
    by_cases h1 : ¬playing = true ∧ kbArr.length = 0
    · rw [if_pos h1] at hlen
      exact absurd hlen (by simp)
    · rw [if_neg h1] at hlen ⊢
      by_cases h2 : channels = none ∨ bufferLength = 0
      · rw [if_pos h2] at hlen
        exact absurd hlen (by simp)
      · rw [if_neg h2] at hlen ⊢
        by_cases h3 : MAXGRAINS ≤ pool.length
        · rw [if_pos h3] at hlen
          exact absurd hlen (by simp)
        · rw [if_neg h3]
          simp [List.getLastD_concat]

/-- C6 witness: `spawnEnvFrames_spec` at the default parameters and 48 kHz,
with a successful spawn. -/
theorem spawnEnvFrames_spec_witness :
    spawnDurSec defaultParams = max (1 / 500) ((defaultParams.attack + defaultParams.release) * defaultParams.grainSize) ∧
    ((spawnGrain true [] 0 (some [[1]]) 1 48000 1024 48000 none 0 0 defaultParams 0 []).1.getLastD default).envLen
      = spawnEnvFrames defaultParams 48000 := by
  have h := spawnEnvFrames_spec defaultParams 48000
  refine ⟨h.2.1 (by norm_num [defaultParams]), ?_⟩
  apply h.2.2.2.2 true [] 0 (some [[1]]) 1 48000 1024 none 0 0 0 []
  unfold spawnGrain
  norm_num
  simp

/-- The JS wrap `((x % 1) + 1) % 1` lands in `[0, 1)` for every finite
input. -/
theorem wrap01_mem (x : ℚ) : 0 ≤ wrap01 x ∧ wrap01 x < 1 := by
  have hmod : ∀ a : ℚ, jsMod a 1 = a - jsTrunc a := by
    intro a
    unfold jsMod
    rw [div_one]
    ring
  unfold wrap01
  rw [hmod, hmod]
  by_cases hx : 0 ≤ x
  · have ht : jsTrunc x = ⌊x⌋ := if_pos hx
    rw [ht]
    have hj0 : 0 ≤ x - (⌊x⌋ : ℚ) := sub_nonneg.mpr (Int.floor_le x)
    have hj1 : x - (⌊x⌋ : ℚ) < 1 := sub_left_lt_of_lt_add (Int.lt_floor_add_one x)
    have hy : jsTrunc (x - (⌊x⌋ : ℚ) + 1) = 1 := by
      unfold jsTrunc
      rw [if_pos (by linarith)]
      rw [Int.floor_eq_iff]
      push_cast
      constructor <;> linarith
    rw [hy]
    push_cast
    constructor <;> linarith
  · have hxneg : x < 0 := lt_of_not_le hx
    have ht : jsTrunc x = -⌊-x⌋ := if_neg hx
    rw [ht]
    have hb1 : (⌊-x⌋ : ℚ) ≤ -x := Int.floor_le (-x)
    have hb2 : -x < (⌊-x⌋ : ℚ) + 1 := Int.lt_floor_add_one (-x)
    have hj0 : -1 < x - (-(⌊-x⌋ : ℚ)) := by linarith
    have hj1 : x - (-(⌊-x⌋ : ℚ)) ≤ 0 := by linarith
    by_cases hone : x - (-(⌊-x⌋ : ℚ)) + 1 = 1
    · have hy : jsTrunc (x - ((-⌊-x⌋ : ℤ) : ℚ) + 1) = 1 := by
        unfold jsTrunc
        rw [if_pos (by push_cast; linarith)]
        rw [Int.floor_eq_iff]
        push_cast at hone ⊢
        constructor <;> linarith
      rw [hy]
      push_cast at hone ⊢
      constructor <;> linarith
    · have hlt : x - (-(⌊-x⌋ : ℚ)) + 1 < 1 := by
        rcases lt_or_eq_of_le (by linarith : x - (-(⌊-x⌋ : ℚ)) + 1 ≤ 1) with h | h
        · exact h
        · exact absurd (by linarith) hone
      have hy : jsTrunc (x - ((-⌊-x⌋ : ℤ) : ℚ) + 1) = 0 := by
        unfold jsTrunc
        rw [if_pos (by push_cast; linarith)]
        rw [Int.floor_eq_iff]
        push_cast
        constructor <;> linarith
      rw [hy]
      push_cast
      constructor <;> linarith

/-- C9: on every processed block — playing or not, notes or not, buffer or
not — each cursor's position is advanced by `scanSpeed * frames / sr_out`
(using that block's parameter snapshot) and wrapped into `[0, 1)`. -/
theorem positions_advance (s : EngineState) (frames : ℕ)
    (dA dB dC : ℕ → ℤ) (uT : Fin 3 → ℕ → ℚ) (_hsr : 0 < s.sampleRateOut) :
    (∀ i : Fin 3,
      (processBlock s frames dA dB dC uT).1.positions i =
        advancePositions s.sampleRateOut frames s.positions
          (readParams s.paramView s.paramStride s.paramsA s.paramsB s.paramsC).1
          (readParams s.paramView s.paramStride s.paramsA s.paramsB s.paramsC).2.1
          (readParams s.paramView s.paramStride s.paramsA s.paramsB s.paramsC).2.2 i) ∧
    ((processBlock s frames dA dB dC uT).1.positions 0 =
      wrap01 (s.positions 0 +
        (readParams s.paramView s.paramStride s.paramsA s.paramsB s.paramsC).1.scanSpeed *
          ((frames : ℚ) / s.sampleRateOut))) ∧
    ((processBlock s frames dA dB dC uT).1.positions 1 =
      wrap01 (s.positions 1 +
        (readParams s.paramView s.paramStride s.paramsA s.paramsB s.paramsC).2.1.scanSpeed *
          ((frames : ℚ) / s.sampleRateOut))) ∧
    ((processBlock s frames dA dB dC uT).1.positions 2 =
      wrap01 (s.positions 2 +
        (readParams s.paramView s.paramStride s.paramsA s.paramsB s.paramsC).2.2.scanSpeed *
          ((frames : ℚ) / s.sampleRateOut))) ∧
    (∀ i : Fin 3, 0 ≤ (processBlock s frames dA dB dC uT).1.positions i ∧
       (processBlock s frames dA dB dC uT).1.positions i < 1) := by
  have hpos : ∀ i : Fin 3,
      (processBlock s frames dA dB dC uT).1.positions i =
        advancePositions s.sampleRateOut frames s.positions
          (readParams s.paramView s.paramStride s.paramsA s.paramsB s.paramsC).1
          (readParams s.paramView s.paramStride s.paramsA s.paramsB s.paramsC).2.1
          (readParams s.paramView s.paramStride s.paramsA s.paramsB s.paramsC).2.2 i := by
    intro i
    unfold processBlock
    dsimp only
    split <;> rfl
  have hadv : ∀ i : Fin 3,
      ∃ y : ℚ, advancePositions s.sampleRateOut frames s.positions
          (readParams s.paramView s.paramStride s.paramsA s.paramsB s.paramsC).1
          (readParams s.paramView s.paramStride s.paramsA s.paramsB s.paramsC).2.1
          (readParams s.paramView s.paramStride s.paramsA s.paramsB s.paramsC).2.2 i = wrap01 y := by
    intro i
    fin_cases i
    · exact ⟨_, rfl⟩
    · exact ⟨_, rfl⟩
    · exact ⟨_, rfl⟩
  refine ⟨hpos, ?_, ?_, ?_, ?_⟩
  · rw [hpos 0]; rfl
  · rw [hpos 1]; rfl
  · rw [hpos 2]; rfl
  · intro i
    rw [hpos i]
    obtain ⟨y, hy⟩ := hadv i
    rw [hy]
    exact wrap01_mem y

/-- C9 witness: `positions_advance` on the freshly constructed engine at
48 kHz (not playing, no notes, no buffer). -/
theorem positions_advance_witness :
    (processBlock (initState 48000) 128 (fun _ => 1) (fun _ => 1) (fun _ => 1) (fun _ _ => 0)).1.positions 0 =
      wrap01 ((initState 48000).positions 0 +
        (readParams (initState 48000).paramView (initState 48000).paramStride
          (initState 48000).paramsA (initState 48000).paramsB (initState 48000).paramsC).1.scanSpeed *
        ((128 : ℚ) / (initState 48000).sampleRateOut)) ∧
    0 ≤ (processBlock (initState 48000) 128 (fun _ => 1) (fun _ => 1) (fun _ => 1) (fun _ _ => 0)).1.positions 0 := by
  have h := positions_advance (initState 48000) 128 (fun _ => 1) (fun _ => 1) (fun _ => 1)
    (fun _ _ => 0) (by norm_num [initState])
  exact ⟨h.2.1, (h.2.2.2.2 0).1⟩

/-- C8: while no source buffer is set — whatever the play state, notes, or
tapes — every output sample of a processed block is exactly 0, and the
buffer stays unset. -/
theorem noBuffer_silence (s : EngineState) (frames : ℕ) (dA dB dC : ℕ → ℤ)
    (uT : Fin 3 → ℕ → ℚ) (h : s.channels = none) :
    (processBlock s frames dA dB dC uT).2.1 = List.replicate frames 0 ∧
    (processBlock s frames dA dB dC uT).2.2 = List.replicate frames 0 ∧
    (processBlock s frames dA dB dC uT).1.channels = none := by
  unfold processBlock
  dsimp only
  rw [if_pos (Or.inr (Or.inl h))]
  exact ⟨rfl, rfl, h⟩

/-- C8 witness: the spec's seed test, via `noBuffer_silence` block by block:
construct at 48 kHz, send `set_playing(true)`, render 10 blocks of 128
frames; the 2560 collected output samples are all exactly 0. -/
theorem noBuffer_silence_witness :
    (runBlocks 128 (fun _ => 1) (fun _ => 1) (fun _ => 1) (fun _ _ => 0) 10
        (applySetPlaying (initState 48000) true)).2 = List.replicate 2560 0 := by
  have key : ∀ (n : ℕ) (s : EngineState), s.channels = none →
      (runBlocks 128 (fun _ => 1) (fun _ => 1) (fun _ => 1) (fun _ _ => 0) n s).2 =
        List.replicate (n * 256) 0 ∧
      (runBlocks 128 (fun _ => 1) (fun _ => 1) (fun _ => 1) (fun _ _ => 0) n s).1.channels = none := by
    intro n
    induction n with
    | zero => intro s h; exact ⟨rfl, h⟩
    | succ m ih =>
        intro s h
        have hb := noBuffer_silence s 128 (fun _ => 1) (fun _ => 1) (fun _ => 1) (fun _ _ => 0) h
        have hr := ih (processBlock s 128 (fun _ => 1) (fun _ => 1) (fun _ => 1) (fun _ _ => 0)).1 hb.2.2
        refine ⟨?_, ?_⟩
        · simp only [runBlocks]
          rw [hb.1, hb.2.1, hr.1, ← List.replicate_add, ← List.replicate_add]
          congr 1
          ring
        · simp only [runBlocks]
          exact hr.2
  have h10 := key 10 (applySetPlaying (initState 48000) true) rfl
  have harith : (10 : ℕ) * 256 = 2560 := by norm_num
  rw [harith] at h10
  exact h10.1

/-- The sanitizer caps every sample's magnitude at `1e6`. -/
theorem abs_sanitizeSample_le {K : Type} [LinearOrderedField K] (x : Option K) :
    |sanitizeSample x| ≤ 10 ^ 6 := by
  cases x with
  | none =>
      simp only [sanitizeSample, abs_zero]
      positivity
  | some v =>
      simp only [sanitizeSample]
      by_cases h1 : |v| < 1 / 10 ^ 24
      · rw [if_pos h1, abs_zero]
        positivity
      · rw [if_neg h1]
        by_cases h2 : |v| > 10 ^ 6
        · rw [if_pos h2]
          by_cases h3 : v < 0
          · rw [if_pos h3, abs_neg, abs_of_nonneg (by positivity)]
          · rw [if_neg h3, abs_of_nonneg (by positivity)]
        · rw [if_neg h2]
          exact le_of_not_lt h2

/-- The running maximum of the true-peak loop never decreases. -/
theorem truePeak2xGo_ge_init {K : Type} [LinearOrderedField K] (l : List K) :
    ∀ (r : List K) (tp : K), tp ≤ truePeak2xGo l r tp := by
  induction l with
  | nil => intro r tp; cases r <;> simp [truePeak2xGo]
  | cons a tail ih =>
      intro r tp
      match tail, r with
      | [], [] => simp [truePeak2xGo]
      | [], [b] => simp [truePeak2xGo]
      | [], b :: b2 :: rt => simp [truePeak2xGo]
      | a2 :: t2, [] => simp [truePeak2xGo]
      | a2 :: t2, [b] => simp [truePeak2xGo]
      | a2 :: t2, b :: b2 :: rt =>
          simp only [truePeak2xGo]
          refine le_trans ?_ (ih (b2 :: rt) _)
          split
          · next h => exact le_of_lt h
          · exact le_refl tp

/-- For stereo blocks of equal length at least 2, every sample of both
channels is dominated by the true-peak loop's result. -/
theorem truePeak2xGo_covers {K : Type} [LinearOrderedField K] (l : List K) :
    ∀ (r : List K) (tp : K), l.length = r.length → 2 ≤ l.length →
      (∀ x ∈ l, |x| ≤ truePeak2xGo l r tp) ∧ (∀ x ∈ r, |x| ≤ truePeak2xGo l r tp) := by
  induction l with
  | nil => intro r tp _ h2; simp at h2
  | cons a tail ih =>
      intro r tp hlen h2
      match tail, r with
      | [], _ => simp at h2
      | a2 :: t2, [] => simp at hlen
      | a2 :: t2, [b] => simp at hlen
      | a2 :: t2, b :: b2 :: rt =>
          have hm : ∀ v : K, (v = a ∨ v = b ∨ v = a2 ∨ v = b2) →
              |v| ≤ truePeak2xGo (a :: a2 :: t2) (b :: b2 :: rt) tp := by
            intro v hv
            simp only [truePeak2xGo]
            refine le_trans ?_ (truePeak2xGo_ge_init (a2 :: t2) (b2 :: rt) _)
            have hvm : |v| ≤
                max (max (max |a| |b|) (max |a2| |b2|))
                  (max |(1 / 2 : K) * (a + a2)| |(1 / 2 : K) * (b + b2)|) := by
              rcases hv with rfl | rfl | rfl | rfl
              · exact le_trans (le_max_left _ _) (le_trans (le_max_left _ _) (le_max_left _ _))
              · exact le_trans (le_max_right _ _) (le_trans (le_max_left _ _) (le_max_left _ _))
              · exact le_trans (le_max_left _ _) (le_trans (le_max_right _ _) (le_max_left _ _))
              · exact le_trans (le_max_right _ _) (le_trans (le_max_right _ _) (le_max_left _ _))
            split
            · next _ => exact hvm
            · next h => exact le_trans hvm (le_of_not_lt h)
          match t2, rt with
          | [], rt =>
              have hrt : rt = [] := by simpa using hlen
              subst hrt
              refine ⟨?_, ?_⟩
              · intro x hx
                rcases List.mem_cons.mp hx with rfl | hx2
                · exact hm x (Or.inl rfl)
                · rcases List.mem_cons.mp hx2 with rfl | hx3
                  · exact hm x (Or.inr (Or.inr (Or.inl rfl)))
                  · simp at hx3
              · intro x hx
                rcases List.mem_cons.mp hx with rfl | hx2
                · exact hm x (Or.inr (Or.inl rfl))
                · rcases List.mem_cons.mp hx2 with rfl | hx3
                  · exact hm x (Or.inr (Or.inr (Or.inr rfl)))
                  · simp at hx3
          | a3 :: t3, [] => simp at hlen
          | a3 :: t3, b3 :: rt3 =>
              have hih := ih (b2 :: b3 :: rt3) (if max (max (max |a| |b|) (max |a2| |b2|))
                    (max |(1 / 2 : K) * (a + a2)| |(1 / 2 : K) * (b + b2)|) > tp
                  then max (max (max |a| |b|) (max |a2| |b2|))
                    (max |(1 / 2 : K) * (a + a2)| |(1 / 2 : K) * (b + b2)|) else tp)
                (by simpa using hlen) (by simp)
              have hgo : truePeak2xGo (a :: a2 :: a3 :: t3) (b :: b2 :: b3 :: rt3) tp =
                  truePeak2xGo (a2 :: a3 :: t3) (b2 :: b3 :: rt3)
                    (if max (max (max |a| |b|) (max |a2| |b2|))
                        (max |(1 / 2 : K) * (a + a2)| |(1 / 2 : K) * (b + b2)|) > tp
                     then max (max (max |a| |b|) (max |a2| |b2|))
                        (max |(1 / 2 : K) * (a + a2)| |(1 / 2 : K) * (b + b2)|) else tp) := by
                simp only [truePeak2xGo]
              refine ⟨?_, ?_⟩
              · intro x hx
                rcases List.mem_cons.mp hx with rfl | hx2
                · exact hm x (Or.inl rfl)
                · rw [hgo]
                  exact hih.1 x hx2
              · intro x hx
                rcases List.mem_cons.mp hx with rfl | hx2
                · exact hm x (Or.inr (Or.inl rfl))
                · rw [hgo]
                  exact hih.2 x hx2

/-- Every sample of an equal-length stereo block is dominated by
`truePeak2x`. -/
theorem truePeak2x_ge {K : Type} [LinearOrderedField K] (l r : List K)
    (hlen : l.length = r.length) :
    (∀ x ∈ l, |x| ≤ truePeak2x l r) ∧ (∀ x ∈ r, |x| ≤ truePeak2x l r) := by
  unfold truePeak2x
  by_cases h1 : l.length = 1
  · rw [if_pos h1]
    have hr1 : r.length = 1 := by omega
    obtain ⟨a, rfl⟩ := List.length_eq_one.mp h1
    obtain ⟨b, rfl⟩ := List.length_eq_one.mp hr1
    constructor
    · intro x hx
      have hx' : x = a := List.mem_singleton.mp hx
      subst hx'
      simp only [List.headD_cons]
      exact le_max_left |x| |b|
    · intro x hx
      have hx' : x = b := List.mem_singleton.mp hx
      subst hx'
      simp only [List.headD_cons]
      exact le_max_right |a| |x|
  · rw [if_neg h1]
    rcases Nat.lt_or_ge l.length 2 with hlt | hge
    · have h0 : l.length = 0 := by omega
      have hl : l = [] := List.length_eq_zero.mp h0
      have hr : r = [] := List.length_eq_zero.mp (by omega)
      subst hl
      subst hr
      simp
    · exact truePeak2xGo_covers l r 0 hlen hge

/-- Every element of the ring after the write loop was already in the ring
or is one of the written samples. -/
theorem ringWriteGo_mem {K : Type} (ps : List (K × K)) :
    ∀ (bl br : List K) (w : ℕ),
      (∀ x ∈ (ringWriteGo ps bl br w).1, x ∈ bl ∨ ∃ p ∈ ps, x = p.1) ∧
      (∀ x ∈ (ringWriteGo ps bl br w).2.1, x ∈ br ∨ ∃ p ∈ ps, x = p.2) := by
  induction ps with
  | nil => intro bl br w; simp [ringWriteGo]
  | cons p rest ih =>
      intro bl br w
      constructor
      · intro x hx
        rcases ((ih (bl.set w p.1) (br.set w p.2) ((w + 1) % bl.length)).1 x hx) with hmem | ⟨q, hq, hxq⟩
        · rcases List.mem_or_eq_of_mem_set hmem with h | h
          · exact Or.inl h
          · exact Or.inr ⟨p, List.mem_cons_self p rest, h⟩
        · exact Or.inr ⟨q, List.mem_cons_of_mem p hq, hxq⟩
      · intro x hx
        rcases ((ih (bl.set w p.1) (br.set w p.2) ((w + 1) % bl.length)).2 x hx) with hmem | ⟨q, hq, hxq⟩
        · rcases List.mem_or_eq_of_mem_set hmem with h | h
          · exact Or.inl h
          · exact Or.inr ⟨p, List.mem_cons_self p rest, h⟩
        · exact Or.inr ⟨q, List.mem_cons_of_mem p hq, hxq⟩

/-- A defaulted list read is an element or the default. -/
theorem getD_mem_or_default {K : Type} (l : List K) (i : ℕ) (d : K) :
    l.getD i d ∈ l ∨ l.getD i d = d := by
  by_cases h : i < l.length
  · left
    rw [List.getD_eq_getElem l d h]
    exact List.getElem_mem h
  · right
    simp [List.getD_eq_getElem?_getD, List.getElem?_eq_none (le_of_not_lt h)]

/-- Every sample of the sanitized-and-trimmed block is bounded by
`trim * 1e6`. -/
theorem limiterTrimmed_abs_le {K : Type} [LinearOrderedField K] (s : LimiterState K)
    (inp : List (Option K)) (htrim : 0 ≤ s.trim) :
    ∀ x ∈ limiterTrimmed s inp, |x| ≤ s.trim * 10 ^ 6 := by
  intro x hx
  unfold limiterTrimmed at hx
  by_cases ht : s.trim ≠ 1
  · rw [if_pos ht] at hx
    obtain ⟨y, hy, rfl⟩ := List.mem_map.mp hx
    obtain ⟨v, _, rfl⟩ := List.mem_map.mp hy
    rw [abs_mul, abs_of_nonneg htrim, mul_comm]
    exact mul_le_mul_of_nonneg_left (abs_sanitizeSample_le v) htrim
  · rw [if_neg ht] at hx
    obtain ⟨v, _, rfl⟩ := List.mem_map.mp hx
    have h1 : s.trim = 1 := not_not.mp ht
    rw [h1, one_mul]
    exact abs_sanitizeSample_le v

/-- The trimmed block has the input block's length. -/
theorem limiterTrimmed_length {K : Type} [LinearOrderedField K] (s : LimiterState K)
    (inp : List (Option K)) : (limiterTrimmed s inp).length = inp.length := by
  unfold limiterTrimmed
  by_cases ht : s.trim ≠ 1 <;> simp [ht]

/-- Structural characterization of one `processLimiter` call: the new ring
holds old ring content, zeros, or samples of the trimmed block; every
output sample is a (defaulted) ring read times the new envelope; the
envelope stays in `[0, 1]` whenever the state invariant holds; and from a
fresh (`env = 1`) state the new envelope is exactly the `needed` gain of
this block. -/
theorem processLimiter_char {K : Type} [LinearOrderedField K] (s : LimiterState K)
    (inL inR : List (Option K)) :
    (∀ x ∈ (processLimiter s inL inR).1.bufL, x ∈ s.bufL ∨ x = 0 ∨ x ∈ limiterTrimmed s inL) ∧
    (∀ x ∈ (processLimiter s inL inR).1.bufR, x ∈ s.bufR ∨ x = 0 ∨ x ∈ limiterTrimmed s inR) ∧
    (∀ y ∈ (processLimiter s inL inR).2.1,
       ∃ e, (e ∈ (processLimiter s inL inR).1.bufL ∨ e = 0) ∧
            y = e * (processLimiter s inL inR).1.env) ∧
    (∀ y ∈ (processLimiter s inL inR).2.2,
       ∃ e, (e ∈ (processLimiter s inL inR).1.bufR ∨ e = 0) ∧
            y = e * (processLimiter s inL inR).1.env) ∧
    (s.env ≤ 1 → 0 ≤ s.env → 0 ≤ s.rel → s.rel ≤ 1 →
       (processLimiter s inL inR).1.env ≤ 1 ∧ 0 ≤ (processLimiter s inL inR).1.env) ∧
    (s.env = 1 →
       (processLimiter s inL inR).1.env =
         (if truePeak2x (limiterTrimmed s inL) (limiterTrimmed s inR) > 1 / 10 ^ 12
          then min 1 (max (1 / 10) (min 1 s.ceil) /
                 truePeak2x (limiterTrimmed s inL) (limiterTrimmed s inR))
          else 1)) := by
  have hneed : ∀ tp c2 : K, (1 / 10 : K) ≤ c2 →
      0 ≤ (if tp > 1 / 10 ^ 12 then min 1 (c2 / tp) else 1) ∧
      (if tp > 1 / 10 ^ 12 then min 1 (c2 / tp) else 1) ≤ 1 := by
    intro tp c2 hc2
    by_cases htp : tp > 1 / 10 ^ 12
    · rw [if_pos htp]
      refine ⟨le_min (by norm_num) ?_, min_le_left _ _⟩
      have htp0 : (0 : K) < tp := lt_trans (by positivity) htp
      exact div_nonneg (le_trans (by norm_num) hc2) (le_of_lt htp0)
    · rw [if_neg htp]
      norm_num
  unfold processLimiter limiterTrimmed
  dsimp only
  constructor
  · intro x hx
    rcases (ringWriteGo_mem _ _ _ _).1 x hx with hold | ⟨p, hp, rfl⟩
    · split at hold
      · next hrs =>
          dsimp only at hold
          obtain ⟨i, hi⟩ := Set.mem_range.mp ((List.mem_ofFn _ _).mp hold)
          by_cases hio : (i : ℕ) < s.bufL.length
          · rw [if_pos hio] at hi
            rcases getD_mem_or_default s.bufL ((s.write + (i : ℕ)) % s.bufL.length) 0 with hm | hz
            · exact Or.inl (hi ▸ hm)
            · exact Or.inr (Or.inl (hi ▸ hz))
          · rw [if_neg hio] at hi
            exact Or.inr (Or.inl hi.symm)
      · next hrs => exact Or.inl hold
    · exact Or.inr (Or.inr (List.of_mem_zip hp).1)
  constructor
  · intro x hx
    rcases (ringWriteGo_mem _ _ _ _).2 x hx with hold | ⟨p, hp, rfl⟩
    · split at hold
      · next hrs =>
          dsimp only at hold
          obtain ⟨i, hi⟩ := Set.mem_range.mp ((List.mem_ofFn _ _).mp hold)
          by_cases hio : (i : ℕ) < s.bufL.length
          · rw [if_pos hio] at hi
            rcases getD_mem_or_default s.bufR ((s.write + (i : ℕ)) % s.bufL.length) 0 with hm | hz
            · exact Or.inl (hi ▸ hm)
            · exact Or.inr (Or.inl (hi ▸ hz))
          · rw [if_neg hio] at hi
            exact Or.inr (Or.inl hi.symm)
      · next hrs => exact Or.inl hold
    · exact Or.inr (Or.inr (List.of_mem_zip hp).2)
  constructor
  · intro y hy
    obtain ⟨i, hi⟩ := Set.mem_range.mp ((List.mem_ofFn _ _).mp hy)
    exact ⟨_, getD_mem_or_default _ _ 0, hi.symm⟩
  constructor
  · intro y hy
    obtain ⟨i, hi⟩ := Set.mem_range.mp ((List.mem_ofFn _ _).mp hy)
    exact ⟨_, getD_mem_or_default _ _ 0, hi.symm⟩
  constructor
  · intro he1 he0 hr0 hr1
    have henv : ∀ nd : K, 0 ≤ nd → nd ≤ 1 →
        ((if nd < s.env then nd else 1 - (1 - s.env) * s.rel) ≤ 1 ∧
         0 ≤ (if nd < s.env then nd else 1 - (1 - s.env) * s.rel)) := by
      intro nd h0 h1
      by_cases hb : nd < s.env
      · rw [if_pos hb]
        exact ⟨h1, h0⟩
      · rw [if_neg hb]
        constructor
        · nlinarith [mul_nonneg (sub_nonneg.mpr he1) hr0]
        · nlinarith [mul_le_of_le_one_right (sub_nonneg.mpr he1) hr1]
    exact henv _ (hneed _ _ (le_max_left _ _)).1 (hneed _ _ (le_max_left _ _)).2
  · intro he
    have henv1 : ∀ nd : K, nd ≤ 1 →
        (if nd < s.env then nd else 1 - (1 - s.env) * s.rel) = nd := by
      intro nd h1
      by_cases hb : nd < s.env
      · rw [if_pos hb]
      · rw [if_neg hb]
        rw [he] at hb
        have hnd : nd = 1 := le_antisymm h1 (le_of_not_lt hb)
        rw [hnd, he]
        ring
    exact henv1 _ (hneed _ _ (le_max_left _ _)).2

/-- C1 (amended): limiter outputs are always finite and bounded — under the
state invariant (envelope in `[0,1]`, ring content bounded by
`master_trim * 1e6`) every output sample's magnitude stays at or below the
sanitizer bound `master_trim * 1e6`, and the invariant is preserved; and on
the very first processed block (fresh state: unit envelope, zeroed ring)
every output magnitude is at most the defensively clamped ceiling.  The
original claim's scaling of the output by `1/master_trim` does not satisfy
the `ceiling + ε` bound (see the counterexample). -/
theorem limiter_output_bounds :
    (∀ (K : Type) [inst : LinearOrderedField K] (s : LimiterState K)
       (inL inR : List (Option K)) (B : K),
       s.env ≤ 1 → 0 ≤ s.env → 0 ≤ s.rel → s.rel ≤ 1 → 0 ≤ s.trim →
       s.trim * 10 ^ 6 ≤ B →
       (∀ x ∈ s.bufL, |x| ≤ B) → (∀ x ∈ s.bufR, |x| ≤ B) →
       ((∀ y ∈ (processLimiter s inL inR).2.1, |y| ≤ B) ∧
        (∀ y ∈ (processLimiter s inL inR).2.2, |y| ≤ B) ∧
        (processLimiter s inL inR).1.env ≤ 1 ∧ 0 ≤ (processLimiter s inL inR).1.env ∧
        (∀ x ∈ (processLimiter s inL inR).1.bufL, |x| ≤ B) ∧
        (∀ x ∈ (processLimiter s inL inR).1.bufR, |x| ≤ B))) ∧
    (∀ (K : Type) [inst : LinearOrderedField K] (s : LimiterState K)
       (inL inR : List (Option K)),
       s.env = 1 → (∀ x ∈ s.bufL, x = 0) → (∀ x ∈ s.bufR, x = 0) →
       inL.length = inR.length →
       ((∀ y ∈ (processLimiter s inL inR).2.1, |y| ≤ max (1 / 10) (min 1 s.ceil)) ∧
        (∀ y ∈ (processLimiter s inL inR).2.2, |y| ≤ max (1 / 10) (min 1 s.ceil)))) := by
  constructor
  · intro K inst s inL inR B he1 he0 hr0 hr1 htr hB hbl hbr
    obtain ⟨hcl, hcr, hol, hor, henv, _⟩ := processLimiter_char s inL inR
    have hB0 : (0 : K) ≤ B := le_trans (by positivity) hB
    have henv2 := henv he1 he0 hr0 hr1
    have hbufL' : ∀ x ∈ (processLimiter s inL inR).1.bufL, |x| ≤ B := by
      intro x hx
      rcases hcl x hx with h | h | h
      · exact hbl x h
      · rw [h, abs_zero]; exact hB0
      · exact le_trans (limiterTrimmed_abs_le s inL htr x h) hB
    have hbufR' : ∀ x ∈ (processLimiter s inL inR).1.bufR, |x| ≤ B := by
      intro x hx
      rcases hcr x hx with h | h | h
      · exact hbr x h
      · rw [h, abs_zero]; exact hB0
      · exact le_trans (limiterTrimmed_abs_le s inR htr x h) hB
    have hout : ∀ (e : K), (e ∈ (processLimiter s inL inR).1.bufL ∨ e = 0) ∨
        (e ∈ (processLimiter s inL inR).1.bufR ∨ e = 0) →
        |e * (processLimiter s inL inR).1.env| ≤ B := by
      intro e hme
      have heB : |e| ≤ B := by
        rcases hme with (h | h) | (h | h)
        · exact hbufL' e h
        · rw [h, abs_zero]; exact hB0
        · exact hbufR' e h
        · rw [h, abs_zero]; exact hB0
      rw [abs_mul, abs_of_nonneg henv2.2]
      have := mul_le_mul heB henv2.1 henv2.2 hB0
      simpa using this
    refine ⟨?_, ?_, henv2.1, henv2.2, hbufL', hbufR'⟩
    · intro y hy
      obtain ⟨e, hme, rfl⟩ := hol y hy
      exact hout e (Or.inl hme)
    · intro y hy
      obtain ⟨e, hme, rfl⟩ := hor y hy
      exact hout e (Or.inr hme)
  · intro K inst s inL inR he hzl hzr hlen
    obtain ⟨hcl, hcr, hol, hor, _, henvf⟩ := processLimiter_char s inL inR
    have henv' := henvf he
    have hlen2 : (limiterTrimmed s inL).length = (limiterTrimmed s inR).length := by
      rw [limiterTrimmed_length, limiterTrimmed_length, hlen]
    have htpK := truePeak2x_ge (limiterTrimmed s inL) (limiterTrimmed s inR) hlen2
    have hc2pos : (0 : K) < max (1 / 10) (min 1 s.ceil) :=
      lt_of_lt_of_le (by norm_num) (le_max_left _ _)
    have hkey : ∀ (e : K),
        (e = 0 ∨ e ∈ limiterTrimmed s inL ∨ e ∈ limiterTrimmed s inR) →
        |e * (processLimiter s inL inR).1.env| ≤ max (1 / 10) (min 1 s.ceil) := by
      intro e hme
      rcases hme with rfl | hmem
      · rw [zero_mul, abs_zero]
        exact le_of_lt hc2pos
      · have habs : |e| ≤ truePeak2x (limiterTrimmed s inL) (limiterTrimmed s inR) := by
          rcases hmem with h | h
          · exact htpK.1 e h
          · exact htpK.2 e h
        rw [henv']
        by_cases htpb : truePeak2x (limiterTrimmed s inL) (limiterTrimmed s inR) > 1 / 10 ^ 12
        · rw [if_pos htpb]
          have htp0 : (0 : K) < truePeak2x (limiterTrimmed s inL) (limiterTrimmed s inR) :=
            lt_trans (by positivity) htpb
          have hmin0 : (0 : K) ≤ min 1 (max (1 / 10) (min 1 s.ceil) /
              truePeak2x (limiterTrimmed s inL) (limiterTrimmed s inR)) :=
            le_min (by norm_num) (div_nonneg (le_of_lt hc2pos) (le_of_lt htp0))
          rw [abs_mul, abs_of_nonneg hmin0]
          have hstep := mul_le_mul habs
            (min_le_right 1 (max (1 / 10) (min 1 s.ceil) /
              truePeak2x (limiterTrimmed s inL) (limiterTrimmed s inR)))
            hmin0 (le_of_lt htp0)
          refine le_trans hstep (le_of_eq ?_)
          rw [mul_comm, div_mul_cancel₀ _ (ne_of_gt htp0)]
        · rw [if_neg htpb, mul_one]
          refine le_trans habs (le_trans (le_of_not_lt htpb) ?_)
          exact le_trans (by norm_num) (le_max_left _ _)
    constructor
    · intro y hy
      obtain ⟨e, hme, rfl⟩ := hol y hy
      refine hkey e ?_
      rcases hme with h | h
      · rcases hcl e h with h1 | h1 | h1
        · exact Or.inl (hzl e h1)
        · exact Or.inl h1
        · exact Or.inr (Or.inl h1)
      · exact Or.inl h
    · intro y hy
      obtain ⟨e, hme, rfl⟩ := hor y hy
      refine hkey e ?_
      rcases hme with h | h
      · rcases hcr e h with h1 | h1 | h1
        · exact Or.inl (hzr e h1)
        · exact Or.inl h1
        · exact Or.inr (Or.inr h1)
      · exact Or.inl h

/-- C1 counterexample: the `1/master_trim`-scaled output magnitude exceeds
`ceiling + ε` already on the first processed block.  With the default
limiter at 1 kHz (`lookahead = 3`, `ceiling = 0.98`, `master_trim = 0.8`,
minimal ring slack) and a 4-frame block of constant `10`, full limiting
makes the first emitted own-block sample exactly `ceiling = 0.98`, so its
magnitude times `1/0.8` is `1.225 = ceiling/master_trim`, above
`ceiling + 0.2` (and above `ceiling + ε` for every `ε < 0.245`). -/
theorem limiter_scaled_ceiling_cex :
    ((processLimiter (createLimiter 1000 3 (49 / 50) 50 (4 / 5) 0)
        (List.replicate 4 (some (10 : ℝ))) (List.replicate 4 (some (10 : ℝ)))).2.1.getD 0 0)
      * (1 / (4 / 5)) = 49 / 40 ∧
    ¬(((processLimiter (createLimiter 1000 3 (49 / 50) 50 (4 / 5) 0)
        (List.replicate 4 (some (10 : ℝ))) (List.replicate 4 (some (10 : ℝ)))).2.1.getD 0 0)
      * (1 / (4 / 5)) ≤ 49 / 50 + 1 / 5) := by
  have hsan : sanitizeSample (some (10 : ℝ)) = 10 := by
    simp only [sanitizeSample]
    rw [if_neg (by norm_num [abs_of_nonneg]), if_neg (by norm_num [abs_of_nonneg])]
  have hCL : createLimiter 1000 3 (49 / 50) 50 (4 / 5) 0 =
      { sr := 1000, lookahead := 3, ceil := ((49 / 50 : ℚ) : ℝ), trim := ((4 / 5 : ℚ) : ℝ),
        rel := (createLimiter 1000 3 (49 / 50) 50 (4 / 5) 0).rel,
        bufL := List.replicate 67 0, bufR := List.replicate 67 0, write := 0, env := 1 } := by
    unfold createLimiter
    norm_num
    exact ⟨rfl, rfl⟩
  have htp8 : truePeak2x (List.replicate 4 (8 : ℝ)) (List.replicate 4 (8 : ℝ)) = 8 := by
    show truePeak2x [8, 8, 8, 8] [8, 8, 8, 8] = 8
    unfold truePeak2x
    rw [if_neg (by norm_num)]
    simp only [truePeak2xGo]
    norm_num
  have hzip : (List.replicate 4 (8 : ℝ)).zip (List.replicate 4 (8 : ℝ)) =
      [((8 : ℝ), (8 : ℝ)), (8, 8), (8, 8), (8, 8)] := rfl
  have hrw : ringWriteGo [((8 : ℝ), (8 : ℝ)), (8, 8), (8, 8), (8, 8)]
      (List.replicate 67 0) (List.replicate 67 0) 0 =
      (((((List.replicate 67 (0 : ℝ)).set 0 8).set 1 8).set 2 8).set 3 8,
       ((((List.replicate 67 (0 : ℝ)).set 0 8).set 1 8).set 2 8).set 3 8, 4) := by
    simp only [ringWriteGo, List.length_set, List.length_replicate]
  have hchain : (((((List.replicate 67 (0 : ℝ)).set 0 8).set 1 8).set 2 8).set 3 8).getD 1 0 = 8 := by
    rw [List.getD_eq_getElem _ _
      (by simp : (1 : ℕ) < (((((List.replicate 67 (0 : ℝ)).set 0 8).set 1 8).set 2 8).set 3 8).length)]
    rw [List.getElem_set_ne (by norm_num), List.getElem_set_ne (by norm_num),
        List.getElem_set_self]
  have hmain : ((processLimiter (createLimiter 1000 3 (49 / 50) 50 (4 / 5) 0)
      (List.replicate 4 (some (10 : ℝ))) (List.replicate 4 (some (10 : ℝ)))).2.1.getD 0 0) = 49 / 50 := by
    rw [hCL]
    unfold processLimiter
    dsimp only
    simp only [List.length_replicate, List.map_replicate, hsan]
    rw [if_neg (by norm_num : ¬((67 : ℕ) < 3 + max 4 64))]
    dsimp only
    rw [if_pos (by norm_num : ((4 / 5 : ℚ) : ℝ) ≠ 1)]
    rw [(by push_cast; norm_num : (10 : ℝ) * ((4 / 5 : ℚ) : ℝ) = 8)]
    rw [htp8]
    rw [(by push_cast; norm_num : max (1 / 10 : ℝ) (min 1 ((49 / 50 : ℚ) : ℝ)) = 49 / 50)]
    rw [if_pos (by norm_num : (8 : ℝ) > 1 / 10 ^ 12)]
    rw [(by norm_num : min (1 : ℝ) (49 / 50 / 8) = 49 / 400)]
    rw [hzip, hrw]
    dsimp only
    rw [if_pos (by norm_num : (49 / 400 : ℝ) < 1)]
    simp only [List.length_set, List.length_replicate]
    rw [(by norm_num : (4 + 67 - 3) % 67 = 1)]
    simp only [Fin.coe_cast]
    rw [List.getD_eq_getElem _ _ (by simp : (0 : ℕ) <
      (List.ofFn fun i : Fin 4 =>
        (((((List.replicate 67 (0 : ℝ)).set 0 8).set 1 8).set 2 8).set 3 8).getD ((1 + (i : ℕ)) % 67) 0
          * (49 / 400)).length)]
    rw [List.getElem_ofFn]
    show (((((List.replicate 67 (0 : ℝ)).set 0 8).set 1 8).set 2 8).set 3 8).getD ((1 + 0) % 67) 0
        * (49 / 400) = 49 / 50
    rw [(by norm_num : ((1 : ℕ) + 0) % 67 = 1), hchain]
    norm_num
  rw [hmain]
  constructor
  · norm_num
  · norm_num

/-- C1 witness: `limiter_output_bounds` applied (over the exact-rational
instance) to a concrete fresh limiter state and a one-sample block, for both
the invariant bound and the first-block ceiling bound. -/
theorem limiter_output_bounds_witness :
    |(processLimiter
        ({ sr := 1000, lookahead := 3, ceil := 49 / 50, trim := 4 / 5, rel := 1 / 2,
           bufL := List.replicate 67 0, bufR := List.replicate 67 0, write := 0,
           env := 1 } : LimiterState ℚ)
        [some 1] [some 1]).2.1.getD 0 0| ≤ (4 / 5) * 10 ^ 6 ∧
    |(processLimiter
        ({ sr := 1000, lookahead := 3, ceil := 49 / 50, trim := 4 / 5, rel := 1 / 2,
           bufL := List.replicate 67 0, bufR := List.replicate 67 0, write := 0,
           env := 1 } : LimiterState ℚ)
        [some 1] [some 1]).2.2.getD 0 0| ≤ max (1 / 10) (min 1 (49 / 50 : ℚ)) := by
  have h1 := limiter_output_bounds.1 ℚ
    ({ sr := 1000, lookahead := 3, ceil := 49 / 50, trim := 4 / 5, rel := 1 / 2,
       bufL := List.replicate 67 0, bufR := List.replicate 67 0, write := 0,
       env := 1 } : LimiterState ℚ)
    [some 1] [some 1] ((4 / 5) * 10 ^ 6)
    (by norm_num) (by norm_num) (by norm_num) (by norm_num) (by norm_num) (by norm_num)
    (by intro x hx; rw [List.eq_of_mem_replicate hx]; norm_num)
    (by intro x hx; rw [List.eq_of_mem_replicate hx]; norm_num)
  have h2 := limiter_output_bounds.2 ℚ
    ({ sr := 1000, lookahead := 3, ceil := 49 / 50, trim := 4 / 5, rel := 1 / 2,
       bufL := List.replicate 67 0, bufR := List.replicate 67 0, write := 0,
       env := 1 } : LimiterState ℚ)
    [some 1] [some 1] rfl
    (fun x hx => List.eq_of_mem_replicate hx)
    (fun x hx => List.eq_of_mem_replicate hx) rfl
  constructor
  · rcases getD_mem_or_default (processLimiter
        ({ sr := 1000, lookahead := 3, ceil := 49 / 50, trim := 4 / 5, rel := 1 / 2,
           bufL := List.replicate 67 0, bufR := List.replicate 67 0, write := 0,
           env := 1 } : LimiterState ℚ)
        [some 1] [some 1]).2.1 0 0 with hm | hz
    · exact h1.1 _ hm
    · rw [hz]
      norm_num
  · rcases getD_mem_or_default (processLimiter
        ({ sr := 1000, lookahead := 3, ceil := 49 / 50, trim := 4 / 5, rel := 1 / 2,
           bufL := List.replicate 67 0, bufR := List.replicate 67 0, write := 0,
           env := 1 } : LimiterState ℚ)
        [some 1] [some 1]).2.2 0 0 with hm | hz
    · exact h2.2 _ hm
    · rw [hz]
      rw [abs_zero]
      exact le_trans (by norm_num) (le_max_left _ _)

/-- Monotonicity of `sin(πx)^2` toward the midpoint: if `0 ≤ x ≤ y` and
`x + y ≤ 1` then `sin(πx)^2 ≤ sin(πy)^2`. -/
theorem sinSq_mono {x y : ℝ} (hx : 0 ≤ x) (hxy : x ≤ y) (hsum : x + y ≤ 1) :
    Real.sin (Real.pi * x) ^ 2 ≤ Real.sin (Real.pi * y) ^ 2 := by
  have hy1 : y ≤ 1 := by linarith
  have hy0 : 0 ≤ y := le_trans hx hxy
  have hx1 : x ≤ 1 := le_trans hxy hy1
  have hsx : 0 ≤ Real.sin (Real.pi * x) :=
    Real.sin_nonneg_of_nonneg_of_le_pi (by positivity)
      (by nlinarith [Real.pi_pos])
  have hmono : ∀ a b : ℝ, 0 ≤ a → a ≤ b → b ≤ 1 / 2 →
      Real.sin (Real.pi * a) ≤ Real.sin (Real.pi * b) := by
    intro a b ha hab hb
    have hpi := Real.pi_pos
    apply Real.strictMonoOn_sin.monotoneOn
    · constructor
      · nlinarith
      · nlinarith
    · constructor
      · nlinarith
      · nlinarith
    · nlinarith
  have key : Real.sin (Real.pi * x) ≤ Real.sin (Real.pi * y) := by
    by_cases hy2 : y ≤ 1 / 2
    · exact hmono x y hx hxy hy2
    · have hsub : Real.sin (Real.pi * (1 - y)) = Real.sin (Real.pi * y) := by
        rw [(by ring : Real.pi * (1 - y) = Real.pi - Real.pi * y), Real.sin_pi_sub]
      rw [← hsub]
      exact hmono x (1 - y) hx (by linarith) (by linarith)
  have hsy : 0 ≤ Real.sin (Real.pi * y) := le_trans hsx key
  exact pow_le_pow_left₀ hsx key 2

/-- Hann table entries lie in `[0, 1]`. -/
theorem lutVal_mem (T i : ℕ) : 0 ≤ lutVal T i ∧ lutVal T i ≤ 1 := by
  unfold lutVal
  exact ⟨sq_nonneg _, Real.sin_sq_le_one _⟩

/-- Hann table symmetry: entry `T-1-j` equals entry `j`. -/
theorem lutVal_symm (T j : ℕ) (hT : 2 ≤ T) (hj : j ≤ T - 1) :
    lutVal T (T - 1 - j) = lutVal T j := by
  unfold lutVal
  have hT1 : ((T : ℝ) - 1) ≠ 0 := by
    have : (2 : ℝ) ≤ (T : ℝ) := by exact_mod_cast hT
    linarith
  have hcast : ((T - 1 - j : ℕ) : ℝ) = ((T : ℝ) - 1) - j := by
    have h1 : ((T - 1 - j : ℕ) : ℝ) = ((T - 1 : ℕ) : ℝ) - (j : ℝ) :=
      Nat.cast_sub hj
    have h2 : ((T - 1 : ℕ) : ℝ) = (T : ℝ) - 1 := by
      exact_mod_cast Nat.cast_sub (by omega : 1 ≤ T)
    rw [h1, h2]
  rw [hcast]
  have hang : Real.pi * ((((T : ℝ) - 1) - j) / ((T : ℝ) - 1)) =
      Real.pi - Real.pi * ((j : ℝ) / ((T : ℝ) - 1)) := by
    field_simp
    ring
  rw [hang, Real.sin_pi_sub]

/-- Hann table monotonicity up to the midpoint: `lut j ≤ lut k` whenever
`j ≤ k` and `j + k ≤ T - 1`. -/
theorem lutVal_mono (T j k : ℕ) (hT : 2 ≤ T) (hjk : j ≤ k) (hsum : j + k ≤ T - 1) :
    lutVal T j ≤ lutVal T k := by
  unfold lutVal
  have hT1 : (0 : ℝ) < (T : ℝ) - 1 := by
    have : (2 : ℝ) ≤ (T : ℝ) := by exact_mod_cast hT
    linarith
  have hcast : ((j : ℝ) + (k : ℝ)) ≤ (T : ℝ) - 1 := by
    have h1 : ((j + k : ℕ) : ℝ) ≤ ((T - 1 : ℕ) : ℝ) := by exact_mod_cast hsum
    have h2 : ((T - 1 : ℕ) : ℝ) = (T : ℝ) - 1 := by
      exact_mod_cast Nat.cast_sub (by omega : 1 ≤ T)
    rw [h2] at h1
    push_cast at h1
    exact h1
  apply sinSq_mono
  · positivity
  · exact (div_le_div_iff_of_pos_right hT1).mpr (by exact_mod_cast hjk)
  · rw [div_add_div_same, div_le_one hT1]
    exact hcast

/-- On an in-range position the envelope lookup is the core interpolation of
the linearly mapped table position. -/
theorem envAtFromLUT_eq_interp (pos len : ℤ) (T : ℕ) (h2 : 2 ≤ len)
    (h0 : 0 ≤ pos) (h1 : pos ≤ len - 1) :
    envAtFromLUT pos len T =
      hannInterp T ((pos : ℚ) / ((len : ℚ) - 1) * ((T : ℚ) - 1)) := by
  unfold envAtFromLUT hannInterp
  rw [if_neg (by omega)]
  have hmin : min ((len : ℚ) - 1) (pos : ℚ) = (pos : ℚ) := by
    rw [min_eq_right]
    exact_mod_cast (by omega : (pos : ℤ) ≤ len - 1)
  have hmax : max 0 (pos : ℚ) = (pos : ℚ) := by
    rw [max_eq_right]
    exact_mod_cast h0
  rw [hmin, hmax]

/-- The core interpolation always lands in `[0, 1]`. -/
theorem hannInterp_mem (T : ℕ) (t : ℚ) : 0 ≤ hannInterp T t ∧ hannInterp T t ≤ 1 := by
  unfold hannInterp
  dsimp only
  obtain ⟨ha0, ha1⟩ := lutVal_mem T ⌊t⌋.toNat
  obtain ⟨hb0, hb1⟩ := lutVal_mem T (min (⌊t⌋.toNat + 1) (T - 1))
  have hf0 : (0 : ℝ) ≤ ((t - ⌊t⌋ : ℚ) : ℝ) := by
    have := Int.fract_nonneg t
    rw [Int.self_sub_floor]
    exact_mod_cast this
  have hf1 : ((t - ⌊t⌋ : ℚ) : ℝ) ≤ 1 := by
    have := le_of_lt (Int.fract_lt_one t)
    rw [Int.self_sub_floor]
    exact_mod_cast this
  constructor
  · nlinarith
  · nlinarith

/-- The core interpolation vanishes at the left table end. -/
theorem hannInterp_zero (T : ℕ) : hannInterp T 0 = 0 := by
  unfold hannInterp lutVal
  norm_num

/-- The core interpolation vanishes at the right table end. -/
theorem hannInterp_last (T : ℕ) (hT : 2 ≤ T) : hannInterp T ((T : ℚ) - 1) = 0 := by
  unfold hannInterp lutVal
  dsimp only
  have hfl : ⌊(T : ℚ) - 1⌋ = (T : ℤ) - 1 := by
    rw [(by push_cast; ring : (T : ℚ) - 1 = (((T : ℤ) - 1 : ℤ) : ℚ))]
    exact Int.floor_intCast _
  rw [hfl]
  have htn : ((T : ℤ) - 1).toNat = T - 1 := by omega
  rw [htn]
  have hT1 : ((T : ℝ) - 1) ≠ 0 := by
    have : (2 : ℝ) ≤ (T : ℝ) := by exact_mod_cast hT
    linarith
  have hcast : ((T - 1 : ℕ) : ℝ) = (T : ℝ) - 1 := by
    exact_mod_cast Nat.cast_sub (by omega : 1 ≤ T)
  have hsin : Real.sin (Real.pi * (((T - 1 : ℕ) : ℝ) / ((T : ℝ) - 1))) = 0 := by
    rw [hcast, div_self hT1, mul_one, Real.sin_pi]
  rw [hsin]
  have hfrac : (((T : ℚ) - 1 - ((T : ℤ) - 1 : ℤ) : ℚ) : ℝ) = 0 := by
    push_cast
    ring
  rw [hfrac]
  ring

/-- The core interpolation is symmetric about the table midpoint. -/
theorem hannInterp_symm (T : ℕ) (t : ℚ) (hT : 2 ≤ T) (h0 : 0 ≤ t)
    (h1 : t ≤ (T : ℚ) - 1) :
    hannInterp T (((T : ℚ) - 1) - t) = hannInterp T t := by
  have hi0 : 0 ≤ ⌊t⌋ := Int.floor_nonneg.mpr h0
  have hTfl : ⌊(T : ℚ) - 1⌋ = (T : ℤ) - 1 := by
    rw [(by push_cast; ring : (T : ℚ) - 1 = (((T : ℤ) - 1 : ℤ) : ℚ))]
    exact Int.floor_intCast _
  have hiT : ⌊t⌋ ≤ (T : ℤ) - 1 := by
    have h := Int.floor_le_floor h1
    rwa [hTfl] at h
  have hrefl_floor : ⌊((T : ℚ) - 1) - t⌋ = ((T : ℤ) - 1) - ⌈t⌉ := by
    rw [(by push_cast; ring : ((T : ℚ) - 1) - t = (((T : ℤ) - 1 : ℤ) : ℚ) + (-t))]
    rw [Int.floor_int_add, Int.floor_neg]
    ring
  by_cases hf : t = (⌊t⌋ : ℚ)
  · have hceil : ⌈t⌉ = ⌊t⌋ := by
      conv_lhs => rw [hf]
      exact Int.ceil_intCast _
    have ht1 : ((T : ℤ) - 1 - ⌊t⌋).toNat = T - 1 - ⌊t⌋.toNat := by omega
    have hL : hannInterp T (((T : ℚ) - 1) - t) = lutVal T (T - 1 - ⌊t⌋.toNat) := by
      unfold hannInterp
      dsimp only
      rw [hrefl_floor, hceil, ht1]
      have hz : ((T : ℚ) - 1 - t - (((T : ℤ) - 1 - ⌊t⌋ : ℤ) : ℚ)) = 0 := by
        rw [hf]
        push_cast
        simp
      rw [hz]
      simp
    have hR : hannInterp T t = lutVal T ⌊t⌋.toNat := by
      unfold hannInterp
      dsimp only
      have hz : (t - (⌊t⌋ : ℚ)) = 0 := by rw [hf]; simp
      rw [hz]
      simp
    rw [hL, hR]
    exact lutVal_symm T ⌊t⌋.toNat hT (by omega)
  · have hti : (⌊t⌋ : ℚ) < t := lt_of_le_of_ne (Int.floor_le t) (fun he => hf he.symm)
    have hceil : ⌈t⌉ = ⌊t⌋ + 1 := by
      refine le_antisymm (Int.ceil_le.mpr ?_) (Int.add_one_le_iff.mpr (Int.lt_ceil.mpr hti))
      have := le_of_lt (Int.lt_floor_add_one t)
      exact_mod_cast this
    have htlt : t < (T : ℚ) - 1 := by
      rcases lt_or_eq_of_le h1 with h | h
      · exact h
      · exfalso
        apply hf
        rw [h, hTfl]
        push_cast
        ring
    have hiT2 : ⌊t⌋ ≤ (T : ℤ) - 2 := by
      have hlt : ⌊t⌋ < (T : ℤ) - 1 := by
        have hle : (⌊t⌋ : ℚ) ≤ t := Int.floor_le t
        have h2 := lt_of_le_of_lt hle htlt
        exact_mod_cast h2
      omega
    have ht1 : ((T : ℤ) - 1 - (⌊t⌋ + 1)).toNat = T - 2 - ⌊t⌋.toNat := by omega
    have hL : hannInterp T (((T : ℚ) - 1) - t) =
        lutVal T (T - 2 - ⌊t⌋.toNat) +
          (lutVal T (T - 1 - ⌊t⌋.toNat) - lutVal T (T - 2 - ⌊t⌋.toNat)) *
            (((1 : ℚ) - (t - ⌊t⌋) : ℚ) : ℝ) := by
      unfold hannInterp
      dsimp only
      rw [hrefl_floor, hceil, ht1]
      have hminv : min (T - 2 - ⌊t⌋.toNat + 1) (T - 1) = T - 1 - ⌊t⌋.toNat := by omega
      rw [hminv]
      have hfr : ((T : ℚ) - 1 - t - (((T : ℤ) - 1 - (⌊t⌋ + 1) : ℤ) : ℚ)) =
          (1 : ℚ) - (t - ⌊t⌋) := by
        push_cast
        ring
      rw [hfr]
    have hR : hannInterp T t =
        lutVal T ⌊t⌋.toNat +
          (lutVal T (⌊t⌋.toNat + 1) - lutVal T ⌊t⌋.toNat) * ((t - ⌊t⌋ : ℚ) : ℝ) := by
      unfold hannInterp
      dsimp only
      have hminv : min (⌊t⌋.toNat + 1) (T - 1) = ⌊t⌋.toNat + 1 := by omega
      rw [hminv]
    rw [hL, hR]
    have he1 : T - 1 - (⌊t⌋.toNat + 1) = T - 2 - ⌊t⌋.toNat := by omega
    have hs1 := lutVal_symm T (⌊t⌋.toNat + 1) hT (by omega)
    rw [he1] at hs1
    have hs2 := lutVal_symm T ⌊t⌋.toNat hT (by omega)
    rw [hs1, hs2]
    push_cast
    ring

/-- The core interpolation is nondecreasing on the first half of the table. -/
theorem hannInterp_mono_first (T : ℕ) (t1 t2 : ℚ) (hT : 2 ≤ T) (h0 : 0 ≤ t1)
    (h12 : t1 ≤ t2) (hhalf : 2 * t2 ≤ (T : ℚ) - 1) :
    hannInterp T t1 ≤ hannInterp T t2 := by
  have hVal : ∀ s : ℚ, hannInterp T s =
      lutVal T ⌊s⌋.toNat +
        (lutVal T (min (⌊s⌋.toNat + 1) (T - 1)) - lutVal T ⌊s⌋.toNat) *
          ((s - ⌊s⌋ : ℚ) : ℝ) := fun s => rfl
  have hi10 : 0 ≤ ⌊t1⌋ := Int.floor_nonneg.mpr h0
  have hi20 : 0 ≤ ⌊t2⌋ := Int.floor_nonneg.mpr (le_trans h0 h12)
  have hi12 : ⌊t1⌋ ≤ ⌊t2⌋ := Int.floor_le_floor h12
  have h2i2 : 2 * ⌊t2⌋ ≤ (T : ℤ) - 1 := by
    have hq : ((2 * ⌊t2⌋ : ℤ) : ℚ) ≤ (((T : ℤ) - 1 : ℤ) : ℚ) := by
      push_cast
      have := Int.floor_le t2
      linarith
    exact_mod_cast hq
  have hf10 : (0 : ℝ) ≤ ((t1 - ⌊t1⌋ : ℚ) : ℝ) := by
    have := sub_nonneg.mpr (Int.floor_le t1)
    exact_mod_cast this
  have hf11 : ((t1 - ⌊t1⌋ : ℚ) : ℝ) ≤ 1 := by
    have hq : (t1 - ⌊t1⌋ : ℚ) ≤ 1 := by
      have := le_of_lt (Int.lt_floor_add_one t1)
      linarith
    exact_mod_cast hq
  have hf20 : (0 : ℝ) ≤ ((t2 - ⌊t2⌋ : ℚ) : ℝ) := by
    have := sub_nonneg.mpr (Int.floor_le t2)
    exact_mod_cast this
  by_cases hEq : ⌊t1⌋ = ⌊t2⌋
  · by_cases hmid : 2 * ⌊t2⌋.toNat + 1 ≤ T - 1
    · have hminv : min (⌊t2⌋.toNat + 1) (T - 1) = ⌊t2⌋.toNat + 1 := by omega
      have hba : lutVal T ⌊t2⌋.toNat ≤ lutVal T (⌊t2⌋.toNat + 1) :=
        lutVal_mono T _ _ hT (by omega) (by omega)
      have hff : ((t1 - ⌊t2⌋ : ℚ) : ℝ) ≤ ((t2 - ⌊t2⌋ : ℚ) : ℝ) := by
        have : (t1 - ⌊t2⌋ : ℚ) ≤ (t2 - ⌊t2⌋ : ℚ) := sub_le_sub_right h12 _
        exact_mod_cast this
      rw [hVal t1, hVal t2, hEq, hminv]
      nlinarith [sub_nonneg.mpr hba]
    · have h2eq : 2 * ⌊t2⌋.toNat = T - 1 := by omega
      have hT1c : ((T : ℚ) - 1) = 2 * (⌊t2⌋ : ℚ) := by
        have h1 : ((T - 1 : ℕ) : ℚ) = (T : ℚ) - 1 := by
          exact_mod_cast Nat.cast_sub (by omega : 1 ≤ T)
        have h2 : ((2 * ⌊t2⌋.toNat : ℕ) : ℚ) = 2 * (⌊t2⌋ : ℚ) := by
          have h3 : ((⌊t2⌋.toNat : ℕ) : ℚ) = (⌊t2⌋ : ℚ) := by
            exact_mod_cast Int.toNat_of_nonneg hi20
          push_cast
          rw [h3]
        rw [← h1, ← h2, h2eq]
      have ht2eq : t2 = (⌊t2⌋ : ℚ) := by
        have hub : t2 ≤ (⌊t2⌋ : ℚ) := by linarith [hhalf, hT1c.symm.le]
        exact le_antisymm hub (Int.floor_le t2)
      have ht1eq : t1 = t2 := by
        have hlb : (⌊t1⌋ : ℚ) ≤ t1 := Int.floor_le t1
        rw [hEq] at hlb
        rw [ht2eq]
        exact le_antisymm (ht2eq ▸ h12) hlb
      rw [ht1eq]
  · have hi12' : ⌊t1⌋ < ⌊t2⌋ := lt_of_le_of_ne hi12 hEq
    have hminv1 : min (⌊t1⌋.toNat + 1) (T - 1) = ⌊t1⌋.toNat + 1 := by omega
    have hba1 : lutVal T ⌊t1⌋.toNat ≤ lutVal T (⌊t1⌋.toNat + 1) :=
      lutVal_mono T _ _ hT (by omega) (by omega)
    have hmid1 : lutVal T (⌊t1⌋.toNat + 1) ≤ lutVal T ⌊t2⌋.toNat :=
      lutVal_mono T _ _ hT (by omega) (by omega)
    have hv1 : hannInterp T t1 ≤ lutVal T (⌊t1⌋.toNat + 1) := by
      rw [hVal t1, hminv1]
      nlinarith [sub_nonneg.mpr hba1]
    by_cases hmid2 : 2 * ⌊t2⌋.toNat + 1 ≤ T - 1
    · have hminv2 : min (⌊t2⌋.toNat + 1) (T - 1) = ⌊t2⌋.toNat + 1 := by omega
      have hba2 : lutVal T ⌊t2⌋.toNat ≤ lutVal T (⌊t2⌋.toNat + 1) :=
        lutVal_mono T _ _ hT (by omega) (by omega)
      have hv2 : lutVal T ⌊t2⌋.toNat ≤ hannInterp T t2 := by
        rw [hVal t2, hminv2]
        nlinarith [sub_nonneg.mpr hba2]
      linarith
    · have h2eq : 2 * ⌊t2⌋.toNat = T - 1 := by omega
      have hT1c : ((T : ℚ) - 1) = 2 * (⌊t2⌋ : ℚ) := by
        have h1 : ((T - 1 : ℕ) : ℚ) = (T : ℚ) - 1 := by
          exact_mod_cast Nat.cast_sub (by omega : 1 ≤ T)
        have h2 : ((2 * ⌊t2⌋.toNat : ℕ) : ℚ) = 2 * (⌊t2⌋ : ℚ) := by
          have h3 : ((⌊t2⌋.toNat : ℕ) : ℚ) = (⌊t2⌋ : ℚ) := by
            exact_mod_cast Int.toNat_of_nonneg hi20
          push_cast
          rw [h3]
        rw [← h1, ← h2, h2eq]
      have ht2eq : t2 = (⌊t2⌋ : ℚ) := by
        have hub : t2 ≤ (⌊t2⌋ : ℚ) := by linarith [hhalf, hT1c.symm.le]
        exact le_antisymm hub (Int.floor_le t2)
      have hv2 : hannInterp T t2 = lutVal T ⌊t2⌋.toNat := by
        rw [hVal t2]
        have hz : ((t2 - ⌊t2⌋ : ℚ) : ℝ) = 0 := by
          rw [ht2eq]
          simp
        rw [hz]
        ring
      linarith

/-- Auxiliary: `envAtFromLUT` is symmetric about the midpoint of `[0, len-1]`. -/
theorem envAt_symm_aux (T : ℕ) (len pos : ℤ) (hT : 2 ≤ T) (h2 : 2 ≤ len)
    (hp0 : 0 ≤ pos) (hp1 : pos ≤ len - 1) :
    envAtFromLUT (len - 1 - pos) len T = envAtFromLUT pos len T := by
  have hL : (0 : ℚ) < (len : ℚ) - 1 := by
    have : (2 : ℚ) ≤ (len : ℚ) := by exact_mod_cast h2
    linarith
  have hTm : (0 : ℚ) ≤ (T : ℚ) - 1 := by
    have : (2 : ℚ) ≤ (T : ℚ) := by exact_mod_cast hT
    linarith
  have hLne : ((len : ℚ) - 1) ≠ 0 := ne_of_gt hL
  rw [envAtFromLUT_eq_interp _ _ _ h2 (by omega) (by omega),
      envAtFromLUT_eq_interp _ _ _ h2 hp0 hp1]
  have ht : ((len - 1 - pos : ℤ) : ℚ) / ((len : ℚ) - 1) * ((T : ℚ) - 1) =
      ((T : ℚ) - 1) - ((pos : ℚ) / ((len : ℚ) - 1) * ((T : ℚ) - 1)) := by
    push_cast
    field_simp
    ring
  rw [ht]
  have hp0' : (0 : ℚ) ≤ (pos : ℚ) := by exact_mod_cast hp0
  have hp1' : (pos : ℚ) ≤ (len : ℚ) - 1 := by exact_mod_cast hp1
  have h0t : (0 : ℚ) ≤ (pos : ℚ) / ((len : ℚ) - 1) * ((T : ℚ) - 1) :=
    mul_nonneg (div_nonneg hp0' hL.le) hTm
  have hfrac : (pos : ℚ) / ((len : ℚ) - 1) ≤ 1 := (div_le_one hL).mpr hp1'
  have h1t : (pos : ℚ) / ((len : ℚ) - 1) * ((T : ℚ) - 1) ≤ (T : ℚ) - 1 := by
    calc (pos : ℚ) / ((len : ℚ) - 1) * ((T : ℚ) - 1)
        ≤ 1 * ((T : ℚ) - 1) := mul_le_mul_of_nonneg_right hfrac hTm
      _ = (T : ℚ) - 1 := one_mul _
  exact hannInterp_symm T _ hT h0t h1t

/-- Auxiliary: `envAtFromLUT` is monotone on the first half of `[0, len-1]`. -/
theorem envAt_mono_aux (T : ℕ) (len p q : ℤ) (hT : 2 ≤ T) (h2 : 2 ≤ len)
    (hp0 : 0 ≤ p) (hpq : p ≤ q) (hq : 2 * q ≤ len - 1) :
    envAtFromLUT p len T ≤ envAtFromLUT q len T := by
  have hL : (0 : ℚ) < (len : ℚ) - 1 := by
    have : (2 : ℚ) ≤ (len : ℚ) := by exact_mod_cast h2
    linarith
  have hTm : (0 : ℚ) ≤ (T : ℚ) - 1 := by
    have : (2 : ℚ) ≤ (T : ℚ) := by exact_mod_cast hT
    linarith
  have hq0 : 0 ≤ q := le_trans hp0 hpq
  have hq1 : q ≤ len - 1 := by omega
  rw [envAtFromLUT_eq_interp _ _ _ h2 hp0 (by omega),
      envAtFromLUT_eq_interp _ _ _ h2 hq0 hq1]
  have hp0' : (0 : ℚ) ≤ (p : ℚ) := by exact_mod_cast hp0
  have hpq' : (p : ℚ) ≤ (q : ℚ) := by exact_mod_cast hpq
  have h0 : (0 : ℚ) ≤ (p : ℚ) / ((len : ℚ) - 1) * ((T : ℚ) - 1) :=
    mul_nonneg (div_nonneg hp0' hL.le) hTm
  have h12 : (p : ℚ) / ((len : ℚ) - 1) * ((T : ℚ) - 1) ≤
      (q : ℚ) / ((len : ℚ) - 1) * ((T : ℚ) - 1) := by gcongr
  have hq' : 2 * (q : ℚ) ≤ (len : ℚ) - 1 := by exact_mod_cast hq
  have hfrac : (q : ℚ) / ((len : ℚ) - 1) ≤ 1 / 2 := by
    rw [div_le_div_iff₀ hL (by norm_num : (0 : ℚ) < 2)]
    linarith
  have hhalf : 2 * ((q : ℚ) / ((len : ℚ) - 1) * ((T : ℚ) - 1)) ≤ (T : ℚ) - 1 := by
    have h := mul_le_mul_of_nonneg_right hfrac hTm
    linarith
  exact hannInterp_mono_first T _ _ hT h0 h12 hhalf

/-- C7: `envAtFromLUT` — the Hann-LUT envelope lookup applied to every rendered
grain sample — on the table of length `lutLen size` returns exactly `1`
whenever `len ≤ 1`; for `len ≥ 2` and positions in `[0, len-1]` it returns a
value in `[0, 1]` that is `0` at position `0` and at position `len-1`, is
symmetric about the midpoint (`env (len-1-p) = env p`), and is monotone
non-decreasing on the first half and non-increasing on the second half. -/
theorem hann_env_spec (size : ℕ) (len pos p q : ℤ) :
    (len ≤ 1 → envAtFromLUT pos len (lutLen size) = 1) ∧
    (2 ≤ len → 0 ≤ pos → pos ≤ len - 1 →
      0 ≤ envAtFromLUT pos len (lutLen size) ∧
        envAtFromLUT pos len (lutLen size) ≤ 1) ∧
    (2 ≤ len →
      envAtFromLUT 0 len (lutLen size) = 0 ∧
        envAtFromLUT (len - 1) len (lutLen size) = 0) ∧
    (2 ≤ len → 0 ≤ pos → pos ≤ len - 1 →
      envAtFromLUT (len - 1 - pos) len (lutLen size) =
        envAtFromLUT pos len (lutLen size)) ∧
    (2 ≤ len → 0 ≤ p → p ≤ q → 2 * q ≤ len - 1 →
      envAtFromLUT p len (lutLen size) ≤ envAtFromLUT q len (lutLen size)) ∧
    (2 ≤ len → len - 1 ≤ 2 * p → p ≤ q → q ≤ len - 1 →
      envAtFromLUT q len (lutLen size) ≤ envAtFromLUT p len (lutLen size)) := by
  have hT : 2 ≤ lutLen size := le_trans (by norm_num) (le_max_left 16 size)
  refine ⟨?_, ?_, ?_, ?_, ?_, ?_⟩
  · intro h
    unfold envAtFromLUT
    rw [if_pos h]
  · intro h2 hp0 hp1
    rw [envAtFromLUT_eq_interp _ _ _ h2 hp0 hp1]
    exact hannInterp_mem _ _
  · intro h2
    have hL : (0 : ℚ) < (len : ℚ) - 1 := by
      have : (2 : ℚ) ≤ (len : ℚ) := by exact_mod_cast h2
      linarith
    have hLne : ((len : ℚ) - 1) ≠ 0 := ne_of_gt hL
    constructor
    · rw [envAtFromLUT_eq_interp _ _ _ h2 le_rfl (by omega)]
      have ht : ((0 : ℤ) : ℚ) / ((len : ℚ) - 1) * ((lutLen size : ℚ) - 1) = 0 := by
        norm_num
      rw [ht]
      exact hannInterp_zero _
    · rw [envAtFromLUT_eq_interp _ _ _ h2 (by omega) le_rfl]
      have ht : ((len - 1 : ℤ) : ℚ) / ((len : ℚ) - 1) * ((lutLen size : ℚ) - 1) =
          (lutLen size : ℚ) - 1 := by
        push_cast
        field_simp
      rw [ht]
      exact hannInterp_last _ hT
  · intro h2 hp0 hp1
    exact envAt_symm_aux _ _ _ hT h2 hp0 hp1
  · intro h2 hp0 hpq hq
    exact envAt_mono_aux _ _ _ _ hT h2 hp0 hpq hq
  · intro h2 hp hpq hq1
    have hq0 : 0 ≤ len - 1 - q := by omega
    have h1 : envAtFromLUT (len - 1 - (len - 1 - q)) len (lutLen size) =
        envAtFromLUT (len - 1 - q) len (lutLen size) :=
      envAt_symm_aux _ _ _ hT h2 hq0 (by omega)
    have h1' : len - 1 - (len - 1 - q) = q := by omega
    rw [h1'] at h1
    have h3 : envAtFromLUT (len - 1 - (len - 1 - p)) len (lutLen size) =
        envAtFromLUT (len - 1 - p) len (lutLen size) :=
      envAt_symm_aux _ _ _ hT h2 (by omega) (by omega)
    have h3' : len - 1 - (len - 1 - p) = p := by omega
    rw [h3'] at h3
    have hmono : envAtFromLUT (len - 1 - q) len (lutLen size) ≤
        envAtFromLUT (len - 1 - p) len (lutLen size) :=
      envAt_mono_aux _ _ _ _ hT h2 hq0 (by omega) (by omega)
    rw [h1, h3]
    exact hmono

/-- C7 witness: `hann_env_spec` at table size 1024, `len = 5`, position `2`,
through its range conjunct, with each hypothesis discharged concretely. -/
theorem hann_env_spec_witness :
    (2 : ℤ) ≤ 5 ∧ (0 : ℤ) ≤ 2 ∧ (2 : ℤ) ≤ 5 - 1 ∧
      (0 ≤ envAtFromLUT 2 5 (lutLen 1024) ∧ envAtFromLUT 2 5 (lutLen 1024) ≤ 1) :=
  ⟨by decide, by decide, by decide,
    (hann_env_spec 1024 5 2 0 0).2.1 (by decide) (by decide) (by decide)⟩

end Granulator
